import Mathlib

/-!
Verification of the stk_YINN trading system core against its specification.

The development shallowly embeds the Python sources in Lean 4:

* prices, cash and P&L amounts (Python floats) are modelled as exact
  rationals `ℚ`;
* trading dates (`datetime` values compared via `.days`) are modelled as
  integers `ℤ` counting days;
* Python `int(x)` truncation is modelled by `pyInt`;
* fallible code paths (uncaught `ZeroDivisionError`) are modelled by
  `Option`, with `none` standing for a propagated exception;
* Python dictionaries appended to trade ledgers are modelled as structures
  whose optional keys (`pnl`, `pnl_pct`, `hold_days`) are `Option` fields.

Division by zero notes: Lean's total division on `ℚ` returns 0.  Wherever the
Python source divides *unguardedly* and a claim depends on the crash behaviour
(`get_current_signal`) the embedding checks the denominator explicitly and
returns `none`.  In the remaining operations (`execute_signal`,
`ScaledPositionTracker.buy`) the unguarded denominator is a price, and all
theorems about them either hold for every rational price or assume positive
prices, matching the data the engine is fed.
-/

/-- Python `int(x)` conversion of a rational: truncation toward zero. -/
def pyInt (q : ℚ) : ℤ := if q < 0 then -⌊-q⌋ else ⌊q⌋

/-- Trading signals, from `strategy.py` (`class Signal(Enum)`). -/
inductive Signal
  | BUY
  | SELL
  | HOLD
deriving DecidableEq, Repr

/-- The `action` field of a recorded trade (the strings `'BUY'`/`'SELL'`). -/
inductive TradeAction
  | BUY
  | SELL
deriving DecidableEq, Repr

/-- An open position, from `strategy.py` (`@dataclass class Position`).
The `position_type` field is always `'long'` (only the BUY branch creates
positions), so it is omitted. -/
structure Position where
  entryDate : ℤ
  entryPrice : ℚ
  shares : ℤ
deriving DecidableEq, Repr

/-- `Position.cost_basis` from `strategy.py`. -/
def Position.costBasis (p : Position) : ℚ := p.entryPrice * (p.shares : ℚ)

/-- `Position.unrealized_pnl` from `strategy.py`, long branch
(`(current_price - entry_price) * shares`). -/
def Position.unrealizedPnl (p : Position) (currentPrice : ℚ) : ℚ :=
  (currentPrice - p.entryPrice) * (p.shares : ℚ)

/-- `Position.unrealized_pnl_pct` from `strategy.py`:
`(pnl / cost_basis) * 100`. -/
def Position.unrealizedPnlPct (p : Position) (currentPrice : ℚ) : ℚ :=
  p.unrealizedPnl currentPrice / p.costBasis * 100

/-- A ledger record appended by `Strategy.execute_signal`.  BUY records carry
no `pnl`, `pnl_pct`, `hold_days` keys; SELL records carry all three.  The
`value` field is `cost` for a BUY and `proceeds` for a SELL, as in the
source dictionaries. -/
structure Trade where
  date : ℤ
  action : TradeAction
  price : ℚ
  shares : ℤ
  value : ℚ
  pnl : Option ℚ
  pnlPct : Option ℚ
  holdDays : Option ℤ
deriving DecidableEq, Repr

/-- The mutable state of a `Strategy` instance (`strategy.py`): `cash`,
`position`, `trades`, `initial_capital`. -/
structure StratState where
  cash : ℚ
  position : Option Position
  trades : List Trade
  initialCapital : ℚ
deriving DecidableEq, Repr

/-- `Strategy.initialize` from `strategy.py`: set cash to the initial
capital, clear the position and the ledger. -/
def StratState.initState (initialCapital : ℚ) : StratState :=
  { cash := initialCapital
    position := none
    trades := []
    initialCapital := initialCapital }

/-- `Strategy.execute_signal` from `strategy.py` lines 68-116.
On BUY while flat: `shares = int((cash * position_size) / price)`; if
positive, debit cash, open the position and append a BUY record.  On SELL
while a position exists: credit the proceeds, append a SELL record carrying
`pnl`, `pnl_pct` and `hold_days`, and clear the position.  All other
signal/state combinations leave the state unchanged. -/
def StratState.executeSignal (s : StratState) (date : ℤ) (signal : Signal)
    (price : ℚ) (positionSize : ℚ) : StratState :=
  match signal, s.position with
  | Signal.BUY, none =>
    let shares := pyInt (s.cash * positionSize / price)
    if 0 < shares then
      let cost := (shares : ℚ) * price
      { s with
          cash := s.cash - cost
          position := some ⟨date, price, shares⟩
          trades := s.trades ++ [⟨date, TradeAction.BUY, price, shares, cost,
            none, none, none⟩] }
    else s
  | Signal.SELL, some pos =>
    let proceeds := (pos.shares : ℚ) * price
    let pnl := pos.unrealizedPnl price
    let pnlPct := pos.unrealizedPnlPct price
    { s with
        cash := s.cash + proceeds
        position := none
        trades := s.trades ++ [⟨date, TradeAction.SELL, price, pos.shares,
          proceeds, some pnl, some pnlPct, some (date - pos.entryDate)⟩] }
  | _, _ => s

/-- One call to `execute_signal`: the arguments the engine passes per bar. -/
structure ExecCall where
  date : ℤ
  signal : Signal
  price : ℚ
  positionSize : ℚ
deriving DecidableEq, Repr

/-- Replay a sequence of `execute_signal` calls against a strategy state. -/
def StratState.applyExecCalls (s : StratState) (calls : List ExecCall) :
    StratState :=
  calls.foldl (fun st c => st.executeSignal c.date c.signal c.price
    c.positionSize) s

/-- The alternating ledger pattern BUY, SELL, BUY, SELL, … of length `n`. -/
def altPattern (n : ℕ) : List TradeAction :=
  (List.range n).map (fun i => if i % 2 = 0 then TradeAction.BUY
    else TradeAction.SELL)

theorem altPattern_succ (n : ℕ) :
    altPattern (n + 1) = altPattern n ++
      [if n % 2 = 0 then TradeAction.BUY else TradeAction.SELL] := by
  simp [altPattern, List.range_succ]

/-- The single-position engine invariant: the ledger alternates
BUY, SELL, BUY, … and a position is open exactly when the ledger ends in an
unmatched BUY (odd length). -/
def EngineInv (s : StratState) : Prop :=
  s.trades.map Trade.action = altPattern s.trades.length ∧
    (s.position.isSome = true ↔ s.trades.length % 2 = 1)

theorem engineInv_init (capital : ℚ) : EngineInv (StratState.initState capital) := by
  constructor
  · simp [StratState.initState, altPattern]
  · simp [StratState.initState]

theorem engineInv_step (s : StratState) (c : ExecCall) (h : EngineInv s) :
    EngineInv (s.executeSignal c.date c.signal c.price c.positionSize) := by
  obtain ⟨hpat, hpos⟩ := h
  rcases hsig : c.signal with _ | _ | _ <;>
    rcases hp : s.position with _ | pos <;>
      simp only [StratState.executeSignal, hsig, hp]
  · -- BUY while flat
    have heven : s.trades.length % 2 = 0 := by
      have : ¬ s.trades.length % 2 = 1 := by
        intro h1
        have := hpos.mpr h1
        rw [hp] at this
        simp at this
      omega
    by_cases hsh : 0 < pyInt (s.cash * c.positionSize / c.price)
    · rw [if_pos hsh]
      constructor
      · simp only [List.map_append, List.length_append, hpat]
        simp [altPattern_succ, heven]
      · simp only [List.length_append, Option.isSome_some, List.length_cons,
          List.length_nil]
        constructor
        · intro _; omega
        · intro _; trivial
    · rw [if_neg hsh]
      exact ⟨hpat, hpos⟩
  · exact ⟨hpat, hpos⟩
  · exact ⟨hpat, hpos⟩
  · -- SELL while long
    have hodd : s.trades.length % 2 = 1 := by
      apply hpos.mp
      rw [hp]; rfl
    constructor
    · simp only [List.map_append, List.length_append, hpat]
      have h1 : s.trades.length % 2 = 0 → False := by omega
      simp [altPattern_succ, hodd]
    · simp only [List.length_append, Option.isSome_none, List.length_cons,
        List.length_nil]
      constructor
      · intro h'; cases h'
      · intro h'; omega
  · exact ⟨hpat, hpos⟩
  · exact ⟨hpat, hpos⟩

theorem engineInv_applyExecCalls (s : StratState) (calls : List ExecCall)
    (h : EngineInv s) : EngineInv (s.applyExecCalls calls) := by
  induction calls generalizing s with
  | nil => exact h
  | cons c rest ih =>
    have : StratState.applyExecCalls s (c :: rest) =
        StratState.applyExecCalls (s.executeSignal c.date c.signal c.price
          c.positionSize) rest := rfl
    rw [this]
    exact ih _ (engineInv_step s c h)

/-- C1: for every initial capital and every sequence of `execute_signal`
calls (arbitrary signal stream, prices and position sizes), the executed
trade ledger is exactly the alternating pattern BUY, SELL, BUY, SELL, …:
the engine never records two consecutive BUY trades without an intervening
SELL, and never records a SELL as the first trade or after another SELL —
a SELL is executed only while a position exists, and a BUY only while
flat. -/
theorem C1_engine_alternation (capital : ℚ) (calls : List ExecCall) :
    ((StratState.initState capital).applyExecCalls calls).trades.map
        Trade.action =
      altPattern ((StratState.initState capital).applyExecCalls
        calls).trades.length :=
  (engineInv_applyExecCalls _ calls (engineInv_init capital)).1

/-- `completed_trades` from `Strategy.get_performance_summary`: the ledger
records carrying a `pnl` key (the SELL records). -/
def StratState.completedTrades (s : StratState) : List Trade :=
  s.trades.filter (fun t => t.pnl.isSome)

/-- The dictionary returned by `Strategy.get_performance_summary`. -/
structure PerfSummary where
  totalTrades : ℕ
  winningTrades : ℕ
  losingTrades : ℕ
  winRate : ℚ
  totalPnl : ℚ
  avgPnl : ℚ
  avgWin : ℚ
  avgLoss : ℚ
  avgHoldDays : ℚ
  totalReturnPct : ℚ
deriving DecidableEq, Repr

/-- `Strategy.get_performance_summary` from `strategy.py` lines 124-149.
`none` models the `'error'` dictionaries returned when the ledger is empty
or no trade carries a `pnl` key.  Winners are trades with `pnl > 0`, losers
those with `pnl < 0`. -/
def StratState.getPerformanceSummary (s : StratState) : Option PerfSummary :=
  if s.trades = [] then none
  else
    let completed := s.completedTrades
    if completed = [] then none
    else
      let totalPnl := (completed.map (fun t => t.pnl.getD 0)).sum
      let winning := completed.filter (fun t => 0 < t.pnl.getD 0)
      let losing := completed.filter (fun t => t.pnl.getD 0 < 0)
      some
        { totalTrades := completed.length
          winningTrades := winning.length
          losingTrades := losing.length
          winRate := (winning.length : ℚ) / (completed.length : ℚ) * 100
          totalPnl := totalPnl
          avgPnl := totalPnl / (completed.length : ℚ)
          avgWin := if winning = [] then 0
            else (winning.map (fun t => t.pnl.getD 0)).sum /
              (winning.length : ℚ)
          avgLoss := if losing = [] then 0
            else (losing.map (fun t => t.pnl.getD 0)).sum /
              (losing.length : ℚ)
          avgHoldDays := ((completed.map
            (fun t => ((t.holdDays.getD 0 : ℤ) : ℚ))).sum) /
            (completed.length : ℚ)
          totalReturnPct := totalPnl / s.initialCapital * 100 }

theorem sign_partition (l : List Trade) :
    (l.filter (fun t => 0 < t.pnl.getD 0)).length +
      (l.filter (fun t => t.pnl.getD 0 < 0)).length +
      (l.filter (fun t => t.pnl.getD 0 = 0)).length = l.length := by
  induction l with
  | nil => simp
  | cons t rest ih =>
    rcases lt_trichotomy (t.pnl.getD 0) 0 with h | h | h
    · have h1 : ¬ (0 : ℚ) < t.pnl.getD 0 := by linarith
      have h2 : ¬ t.pnl.getD 0 = 0 := by linarith
      simp [List.filter_cons, h, h1, h2]
      omega
    · have h1 : ¬ (0 : ℚ) < t.pnl.getD 0 := by rw [h]; exact lt_irrefl 0
      have h2 : ¬ t.pnl.getD 0 < 0 := by rw [h]; exact lt_irrefl 0
      simp [List.filter_cons, h, h1, h2]
      omega
    · have h1 : ¬ t.pnl.getD 0 < 0 := by linarith
      have h2 : ¬ t.pnl.getD 0 = 0 := by linarith
      simp [List.filter_cons, h, h1, h2]
      omega

/-- C10: in the performance summary, winners are exactly the completed
trades with `pnl > 0` and losers exactly those with `pnl < 0`; the
break-even trades (`pnl = 0`) are counted in `total_trades` but in neither
`winning_trades` nor `losing_trades`, so
`winning + losing + breakeven = total` (hence `winning + losing < total`
whenever a break-even trade exists), and `win_rate` is
`winning / total * 100`, counting break-even trades as non-wins. -/
theorem C10_breakeven_trades (s : StratState)
    (h : s.completedTrades ≠ []) :
    ∃ p, s.getPerformanceSummary = some p ∧
      p.totalTrades = s.completedTrades.length ∧
      p.winningTrades =
        (s.completedTrades.filter (fun t => 0 < t.pnl.getD 0)).length ∧
      p.losingTrades =
        (s.completedTrades.filter (fun t => t.pnl.getD 0 < 0)).length ∧
      p.winningTrades + p.losingTrades +
        (s.completedTrades.filter (fun t => t.pnl.getD 0 = 0)).length =
        p.totalTrades ∧
      p.winRate = (p.winningTrades : ℚ) / (p.totalTrades : ℚ) * 100 := by
  have htr : s.trades ≠ [] := by
    intro h0
    apply h
    simp [StratState.completedTrades, h0]
  simp only [StratState.getPerformanceSummary, if_neg htr, if_neg h]
  exact ⟨_, rfl, rfl, rfl, rfl, sign_partition s.completedTrades, rfl⟩

/-- Witness for C10: a ledger with one winning trade (`pnl = 5`), one
break-even trade (`pnl = 0`) and one losing trade (`pnl = -3`); the
break-even trade is counted in `total_trades` = 3 but winners = 1 and
losers = 1. -/
def c10State : StratState :=
  { cash := 100
    position := none
    trades :=
      [⟨0, TradeAction.SELL, 10, 1, 10, some 5, some 50, some 1⟩,
       ⟨1, TradeAction.SELL, 10, 1, 10, some 0, some 0, some 1⟩,
       ⟨2, TradeAction.SELL, 10, 1, 10, some (-3), some (-30), some 1⟩]
    initialCapital := 100 }

theorem C10_breakeven_trades_witness :
    c10State.completedTrades ≠ [] ∧
      ∃ p, c10State.getPerformanceSummary = some p ∧
        p.totalTrades = c10State.completedTrades.length ∧
        p.winningTrades =
          (c10State.completedTrades.filter (fun t => 0 < t.pnl.getD 0)).length ∧
        p.losingTrades =
          (c10State.completedTrades.filter (fun t => t.pnl.getD 0 < 0)).length ∧
        p.winningTrades + p.losingTrades +
          (c10State.completedTrades.filter (fun t => t.pnl.getD 0 = 0)).length =
          p.totalTrades ∧
        p.winRate = (p.winningTrades : ℚ) / (p.totalTrades : ℚ) * 100 := by
  constructor
  · intro h
    simp [c10State, StratState.completedTrades, List.filter] at h
  · exact C10_breakeven_trades c10State (by
      intro h
      simp [c10State, StratState.completedTrades, List.filter] at h)

@[simp] theorem Signal.buy_ne_sell : Signal.BUY ≠ Signal.SELL := by decide

@[simp] theorem Signal.buy_ne_hold : Signal.BUY ≠ Signal.HOLD := by decide

@[simp] theorem Signal.sell_ne_buy : Signal.SELL ≠ Signal.BUY := by decide

@[simp] theorem Signal.sell_ne_hold : Signal.SELL ≠ Signal.HOLD := by decide

@[simp] theorem Signal.hold_ne_buy : Signal.HOLD ≠ Signal.BUY := by decide

@[simp] theorem Signal.hold_ne_sell : Signal.HOLD ≠ Signal.SELL := by decide

/-- A price bar: `(date, close)`.  `run_backtest` and the level computations
read only the date index and the `close` column. -/
abbrev Bar := ℤ × ℚ

/-- The signal-replay loop of `run_backtest` (`backtest.py` lines 90-93):
for each `(date, signal)` pair, skip HOLD and otherwise execute the signal
at that bar's close price. -/
def runBacktestLoop (signals : List Signal) (bars : List Bar)
    (initialCapital positionSize : ℚ) : StratState :=
  ((bars.zip signals).foldl
    (fun st p => if p.2 ≠ Signal.HOLD then
      st.executeSignal p.1.1 p.2 p.1.2 positionSize else st)
    (StratState.initState initialCapital))

/-- `run_backtest` from `backtest.py` lines 56-112 (the state-changing
part): initialize the strategy, replay the signal stream, then — if a
position is still open — force-close it with a SELL at the final bar's
close price.  `none` models the `{'error': 'No data provided'}` return on
empty data.  The verbose printing (including the `[FINAL]` tag on a forced
close) does not touch the ledger and is not modelled. -/
def runBacktest (signals : List Signal) (bars : List Bar)
    (initialCapital positionSize : ℚ) : Option StratState :=
  match bars.getLast? with
  | none => none
  | some lastBar =>
    let s1 := runBacktestLoop signals bars initialCapital positionSize
    some (if s1.position.isSome then
      s1.executeSignal lastBar.1 Signal.SELL lastBar.2 positionSize
    else s1)

/-- C9 counterexample: the forced final close is NOT tagged distinctly in
the ledger.  On the two-bar price series `[(0,10), (1,12)]` with $10,000, a
signal stream `[BUY, HOLD]` (position force-closed at the end) produces a
final state — ledger included — identical to the stream `[BUY, SELL]`
(organic signal-driven exit at the same bar): the forced trade is
indistinguishable from an organic one in the recorded output. -/
theorem C9_forced_close_counterexample :
    runBacktest [Signal.BUY, Signal.HOLD] [(0, 10), (1, 12)] 10000 1 =
      runBacktest [Signal.BUY, Signal.SELL] [(0, 10), (1, 12)] 10000 1 := by
  norm_num [runBacktest, runBacktestLoop, StratState.initState,
    StratState.executeSignal, pyInt, Position.unrealizedPnl,
    Position.unrealizedPnlPct, Position.costBasis, List.zip, List.zipWith,
    List.getLast?]

/-- C9 (amended): whenever a position is still open after the signal loop,
`run_backtest` appends exactly one closing SELL trade at the final bar's
close price, recorded with the same fields as an organic exit — `pnl`,
`pnl_pct` and `hold_days` all present — and clears the position.  (No
distinct tag is recorded in the ledger; the `[FINAL]` tag exists only in
verbose console output.) -/
theorem C9_forced_close (signals : List Signal) (bars : List Bar)
    (initialCapital positionSize : ℚ) (lastBar : Bar)
    (hlast : bars.getLast? = some lastBar) (pos : Position)
    (hpos : (runBacktestLoop signals bars initialCapital
      positionSize).position = some pos) :
    ∃ s2, runBacktest signals bars initialCapital positionSize = some s2 ∧
      s2.trades = (runBacktestLoop signals bars initialCapital
          positionSize).trades ++
        [⟨lastBar.1, TradeAction.SELL, lastBar.2, pos.shares,
          (pos.shares : ℚ) * lastBar.2,
          some (pos.unrealizedPnl lastBar.2),
          some (pos.unrealizedPnlPct lastBar.2),
          some (lastBar.1 - pos.entryDate)⟩] ∧
      s2.position = none := by
  have hrun : runBacktest signals bars initialCapital positionSize =
      some ((runBacktestLoop signals bars initialCapital
        positionSize).executeSignal lastBar.1 Signal.SELL lastBar.2
          positionSize) := by
    simp only [runBacktest, hlast, hpos, Option.isSome_some, if_true]
  refine ⟨_, hrun, ?_, ?_⟩ <;>
    simp only [StratState.executeSignal, hpos]

/-- Witness for C9 (amended): on bars `[(0,10), (1,12)]` with signals
`[BUY, HOLD]`, a position of 1000 shares is still open after the loop and
the engine force-closes it at price 12, recording pnl 2000, pnl_pct 20 and
hold_days 1. -/
theorem C9_forced_close_witness :
    [((0 : ℤ), (10 : ℚ)), (1, 12)].getLast? = some (1, 12) ∧
      (runBacktestLoop [Signal.BUY, Signal.HOLD] [(0, 10), (1, 12)]
        10000 1).position = some ⟨0, 10, 1000⟩ ∧
      ∃ s2, runBacktest [Signal.BUY, Signal.HOLD] [(0, 10), (1, 12)]
          10000 1 = some s2 ∧
        s2.trades = (runBacktestLoop [Signal.BUY, Signal.HOLD]
            [(0, 10), (1, 12)] 10000 1).trades ++
          [⟨1, TradeAction.SELL, 12, 1000, (1000 : ℚ) * 12,
            some (Position.unrealizedPnl ⟨0, 10, 1000⟩ 12),
            some (Position.unrealizedPnlPct ⟨0, 10, 1000⟩ 12),
            some (1 - 0)⟩] ∧
        s2.position = none := by
  have h1 : [((0 : ℤ), (10 : ℚ)), (1, 12)].getLast? = some (1, 12) := by
    norm_num [List.getLast?]
  have h2 : (runBacktestLoop [Signal.BUY, Signal.HOLD] [(0, 10), (1, 12)]
      10000 1).position = some ⟨0, 10, 1000⟩ := by
    norm_num [runBacktestLoop, StratState.initState, StratState.executeSignal,
      pyInt, List.zip, List.zipWith]
  exact ⟨h1, h2, C9_forced_close _ _ _ _ _ h1 _ h2⟩

/-- A ledger record appended by `ScaledPositionTracker.buy` / `.sell`
(`scaled_backtest.py`).  `amount` is the BUY dictionary's `cost` or the
SELL dictionary's `proceeds`; `pct` is `pct_used` respectively `pct_sold`;
`pnl`/`pnlPct` are present only on SELL records; `totalShares` and
`cashAfter` record the post-trade totals (`total_shares` and
`cash_remaining`/`cash`). -/
structure ScaledTrade where
  date : ℤ
  action : TradeAction
  price : ℚ
  shares : ℤ
  amount : ℚ
  pct : ℚ
  pnl : Option ℚ
  pnlPct : Option ℚ
  totalShares : ℤ
  cashAfter : ℚ
deriving DecidableEq, Repr

/-- `ScaledPositionTracker` state from `scaled_backtest.py` lines 14-22. -/
structure ScaledPositionTracker where
  initialCapital : ℚ
  cash : ℚ
  positionShares : ℤ
  positionCost : ℚ
  trades : List ScaledTrade
deriving DecidableEq, Repr

/-- `ScaledPositionTracker.__init__`. -/
def ScaledPositionTracker.init (initialCapital : ℚ) : ScaledPositionTracker :=
  { initialCapital := initialCapital
    cash := initialCapital
    positionShares := 0
    positionCost := 0
    trades := [] }

/-- `ScaledPositionTracker.buy` from `scaled_backtest.py` lines 24-50.
Returns the updated tracker and the number of shares bought (`0` on the
no-op paths).  `shares = int(cash * pct_of_cash / price)`. -/
def ScaledPositionTracker.buy (t : ScaledPositionTracker) (date : ℤ)
    (price pctOfCash : ℚ) : ScaledPositionTracker × ℤ :=
  if t.cash ≤ 0 then (t, 0)
  else
    let cashToUse := t.cash * pctOfCash
    let shares := pyInt (cashToUse / price)
    if 0 < shares then
      let cost := (shares : ℚ) * price
      ({ t with
          cash := t.cash - cost
          positionShares := t.positionShares + shares
          positionCost := t.positionCost + cost
          trades := t.trades ++ [⟨date, TradeAction.BUY, price, shares, cost,
            pctOfCash * 100, none, none, t.positionShares + shares,
            t.cash - cost⟩] }, shares)
    else (t, 0)

/-- `ScaledPositionTracker.sell` from `scaled_backtest.py` lines 52-86.
`shares_to_sell = int(position_shares * pct_of_position)`; the partial-sale
P&L uses the average cost per share, with the two divisions guarded exactly
as in the source (`if self.position_shares > 0 else 0`,
`if cost_of_shares_sold > 0 else 0`). -/
def ScaledPositionTracker.sell (t : ScaledPositionTracker) (date : ℤ)
    (price pctOfPosition : ℚ) : ScaledPositionTracker × ℤ :=
  if t.positionShares ≤ 0 then (t, 0)
  else
    let sharesToSell := pyInt ((t.positionShares : ℚ) * pctOfPosition)
    if 0 < sharesToSell then
      let proceeds := (sharesToSell : ℚ) * price
      let avgCostPerShare := if 0 < t.positionShares then
        t.positionCost / (t.positionShares : ℚ) else 0
      let costOfSharesSold := (sharesToSell : ℚ) * avgCostPerShare
      let pnl := proceeds - costOfSharesSold
      let pnlPct := if 0 < costOfSharesSold then pnl / costOfSharesSold * 100
        else 0
      ({ t with
          cash := t.cash + proceeds
          positionShares := t.positionShares - sharesToSell
          positionCost := t.positionCost - costOfSharesSold
          trades := t.trades ++ [⟨date, TradeAction.SELL, price, sharesToSell,
            proceeds, pctOfPosition * 100, some pnl, some pnlPct,
            t.positionShares - sharesToSell, t.cash + proceeds⟩] },
        sharesToSell)
    else (t, 0)

/-- One call to a `ScaledPositionTracker` primitive. -/
inductive TrackerCall
  | buy (date : ℤ) (price frac : ℚ)
  | sell (date : ℤ) (price frac : ℚ)
deriving DecidableEq, Repr

/-- The price of a tracker call. -/
def TrackerCall.price : TrackerCall → ℚ
  | .buy _ p _ => p
  | .sell _ p _ => p

/-- The fraction argument of a tracker call (`pct_of_cash` or
`pct_of_position`). -/
def TrackerCall.frac : TrackerCall → ℚ
  | .buy _ _ f => f
  | .sell _ _ f => f

/-- Apply one tracker call. -/
def ScaledPositionTracker.applyCall (t : ScaledPositionTracker) :
    TrackerCall → ScaledPositionTracker
  | .buy d p f => (t.buy d p f).1
  | .sell d p f => (t.sell d p f).1

/-- Replay a sequence of tracker calls. -/
def ScaledPositionTracker.applyCalls (t : ScaledPositionTracker)
    (calls : List TrackerCall) : ScaledPositionTracker :=
  calls.foldl ScaledPositionTracker.applyCall t

/-- A valid tracker call: a positive price and a fraction (a proportion of
the available cash or of the current position) between 0 and 1. -/
def TrackerCall.Valid (c : TrackerCall) : Prop :=
  0 < c.price ∧ 0 ≤ c.frac ∧ c.frac ≤ 1

/-- The tracker invariant of C2: cash and shares are non-negative and the
cost basis is zero exactly when the position is zero (and never
negative). -/
def TrackerInv (t : ScaledPositionTracker) : Prop :=
  0 ≤ t.cash ∧ 0 ≤ t.positionShares ∧ 0 ≤ t.positionCost ∧
    (t.positionCost = 0 ↔ t.positionShares = 0)

theorem pyInt_nonneg {q : ℚ} (h : 0 ≤ q) : 0 ≤ pyInt q := by
  rw [pyInt, if_neg (not_lt.mpr h)]
  exact Int.floor_nonneg.mpr h

theorem pyInt_le {q : ℚ} (h : 0 ≤ q) : (pyInt q : ℚ) ≤ q := by
  rw [pyInt, if_neg (not_lt.mpr h)]
  exact Int.floor_le q

theorem pyInt_le_int {q : ℚ} {n : ℤ} (h0 : 0 ≤ q) (h : q ≤ (n : ℚ)) :
    pyInt q ≤ n := by
  rw [pyInt, if_neg (not_lt.mpr h0)]
  have := Int.floor_le_floor h
  rwa [Int.floor_intCast] at this

theorem trackerInv_buy (t : ScaledPositionTracker) (d : ℤ) (p f : ℚ)
    (hp : 0 < p) (hf0 : 0 ≤ f) (hf1 : f ≤ 1) (h : TrackerInv t) :
    TrackerInv (t.buy d p f).1 := by
  obtain ⟨hc, hs, hpc, hiff⟩ := h
  by_cases hcz : t.cash ≤ 0
  · simp only [ScaledPositionTracker.buy, if_pos hcz]
    exact ⟨hc, hs, hpc, hiff⟩
  · by_cases hsh : 0 < pyInt (t.cash * f / p)
    · have hb : (t.buy d p f).1 = { t with
          cash := t.cash - (pyInt (t.cash * f / p) : ℚ) * p
          positionShares := t.positionShares + pyInt (t.cash * f / p)
          positionCost := t.positionCost + (pyInt (t.cash * f / p) : ℚ) * p
          trades := t.trades ++ [⟨d, TradeAction.BUY, p,
            pyInt (t.cash * f / p), (pyInt (t.cash * f / p) : ℚ) * p,
            f * 100, none, none, t.positionShares + pyInt (t.cash * f / p),
            t.cash - (pyInt (t.cash * f / p) : ℚ) * p⟩] } := by
        simp only [ScaledPositionTracker.buy, if_neg hcz, if_pos hsh]
      push_neg at hcz
      have harg : 0 ≤ t.cash * f / p := div_nonneg (mul_nonneg hc hf0) hp.le
      have hshq : (0 : ℚ) < (pyInt (t.cash * f / p) : ℚ) := by exact_mod_cast hsh
      have hcost : (0 : ℚ) < (pyInt (t.cash * f / p) : ℚ) * p :=
        mul_pos hshq hp
      have h2 : (pyInt (t.cash * f / p) : ℚ) * p ≤ t.cash * f := by
        calc (pyInt (t.cash * f / p) : ℚ) * p ≤ (t.cash * f / p) * p :=
              mul_le_mul_of_nonneg_right (pyInt_le harg) hp.le
          _ = t.cash * f := div_mul_cancel₀ _ hp.ne'
      have h3 : t.cash * f ≤ t.cash := by
        calc t.cash * f ≤ t.cash * 1 := mul_le_mul_of_nonneg_left hf1 hc
          _ = t.cash := mul_one _
      rw [hb]
      refine ⟨by simp only; linarith, by simp only; omega,
        by simp only; linarith, ?_⟩
      simp only
      constructor
      · intro h'; exfalso; linarith
      · intro h'; exfalso; omega
    · simp only [ScaledPositionTracker.buy, if_neg hcz, if_neg hsh]
      exact ⟨hc, hs, hpc, hiff⟩

theorem trackerInv_sell (t : ScaledPositionTracker) (d : ℤ) (p f : ℚ)
    (hp : 0 < p) (hf0 : 0 ≤ f) (hf1 : f ≤ 1) (h : TrackerInv t) :
    TrackerInv (t.sell d p f).1 := by
  obtain ⟨hc, hs, hpc, hiff⟩ := h
  by_cases hsz : t.positionShares ≤ 0
  · simp only [ScaledPositionTracker.sell, if_pos hsz]
    exact ⟨hc, hs, hpc, hiff⟩
  · by_cases hsh : 0 < pyInt ((t.positionShares : ℚ) * f)
    · push_neg at hsz
      have hsq : (0 : ℚ) < (t.positionShares : ℚ) := by exact_mod_cast hsz
      have harg : 0 ≤ (t.positionShares : ℚ) * f := mul_nonneg hsq.le hf0
      have hle : pyInt ((t.positionShares : ℚ) * f) ≤ t.positionShares := by
        apply pyInt_le_int harg
        calc (t.positionShares : ℚ) * f ≤ (t.positionShares : ℚ) * 1 :=
              mul_le_mul_of_nonneg_left hf1 hsq.le
          _ = (t.positionShares : ℚ) := mul_one _
      have hcostpos : 0 < t.positionCost := by
        rcases lt_or_eq_of_le hpc with h' | h'
        · exact h'
        · exfalso
          have := hiff.mp h'.symm
          omega
      have hshq : (0 : ℚ) < (pyInt ((t.positionShares : ℚ) * f) : ℚ) := by
        exact_mod_cast hsh
      have hleq : (pyInt ((t.positionShares : ℚ) * f) : ℚ) ≤
          (t.positionShares : ℚ) := by exact_mod_cast hle
      have hb : (t.sell d p f).1 = { t with
          cash := t.cash + (pyInt ((t.positionShares : ℚ) * f) : ℚ) * p
          positionShares := t.positionShares -
            pyInt ((t.positionShares : ℚ) * f)
          positionCost := t.positionCost -
            (pyInt ((t.positionShares : ℚ) * f) : ℚ) *
              (t.positionCost / (t.positionShares : ℚ))
          trades := t.trades ++ [⟨d, TradeAction.SELL, p,
            pyInt ((t.positionShares : ℚ) * f),
            (pyInt ((t.positionShares : ℚ) * f) : ℚ) * p, f * 100,
            some ((pyInt ((t.positionShares : ℚ) * f) : ℚ) * p -
              (pyInt ((t.positionShares : ℚ) * f) : ℚ) *
                (t.positionCost / (t.positionShares : ℚ))),
            some (if 0 < (pyInt ((t.positionShares : ℚ) * f) : ℚ) *
                (t.positionCost / (t.positionShares : ℚ)) then
              ((pyInt ((t.positionShares : ℚ) * f) : ℚ) * p -
                (pyInt ((t.positionShares : ℚ) * f) : ℚ) *
                  (t.positionCost / (t.positionShares : ℚ))) /
                ((pyInt ((t.positionShares : ℚ) * f) : ℚ) *
                  (t.positionCost / (t.positionShares : ℚ))) * 100 else 0),
            t.positionShares - pyInt ((t.positionShares : ℚ) * f),
            t.cash + (pyInt ((t.positionShares : ℚ) * f) : ℚ) * p⟩] } := by
        simp only [ScaledPositionTracker.sell, if_neg (not_le.mpr hsz),
          if_pos hsh, if_pos hsz]
      -- the new cost basis equals cost * (shares - sold) / shares
      have hkey : t.positionCost -
          (pyInt ((t.positionShares : ℚ) * f) : ℚ) *
            (t.positionCost / (t.positionShares : ℚ)) =
          t.positionCost * ((t.positionShares : ℚ) -
            (pyInt ((t.positionShares : ℚ) * f) : ℚ)) /
            (t.positionShares : ℚ) := by
        field_simp
        ring
      rw [hb]
      refine ⟨?_, ?_, ?_, ?_⟩
      · simp only
        have : 0 ≤ (pyInt ((t.positionShares : ℚ) * f) : ℚ) * p :=
          mul_nonneg hshq.le hp.le
        linarith
      · simp only
        omega
      · simp only
        rw [hkey]
        apply div_nonneg _ hsq.le
        apply mul_nonneg hcostpos.le
        linarith
      · simp only
        rw [hkey]
        constructor
        · intro h'
          rcases div_eq_zero_iff.mp h' with h'' | h''
          · rcases mul_eq_zero.mp h'' with h3 | h3
            · exact absurd h3 hcostpos.ne'
            · have h5 : ((t.positionShares : ℚ)) =
                  ((pyInt ((t.positionShares : ℚ) * f) : ℚ)) := by linarith
              have h6 : t.positionShares =
                  pyInt ((t.positionShares : ℚ) * f) := by exact_mod_cast h5
              omega
          · exact absurd h'' hsq.ne'
        · intro h'
          have h6 : (pyInt ((t.positionShares : ℚ) * f) : ℚ) =
              (t.positionShares : ℚ) := by
            exact_mod_cast (by omega :
              pyInt ((t.positionShares : ℚ) * f) = t.positionShares)
          rw [h6]
          simp
    · by_cases hsz2 : t.positionShares ≤ 0
      · simp only [ScaledPositionTracker.sell, if_pos hsz2]
        exact ⟨hc, hs, hpc, hiff⟩
      · simp only [ScaledPositionTracker.sell, if_neg hsz2, if_neg hsh]
        exact ⟨hc, hs, hpc, hiff⟩

theorem trackerInv_applyCalls (t : ScaledPositionTracker)
    (calls : List TrackerCall) (hv : ∀ c ∈ calls, c.Valid)
    (h : TrackerInv t) : TrackerInv (t.applyCalls calls) := by
  induction calls generalizing t with
  | nil => exact h
  | cons c rest ih =>
    have hc := hv c (List.mem_cons_self c rest)
    have hrest : ∀ c' ∈ rest, c'.Valid := fun c' hm =>
      hv c' (List.mem_cons_of_mem c hm)
    have hstep : TrackerInv (t.applyCall c) := by
      cases c with
      | buy d p f =>
        exact trackerInv_buy t d p f hc.1 hc.2.1 hc.2.2 h
      | sell d p f =>
        exact trackerInv_sell t d p f hc.1 hc.2.1 hc.2.2 h
    exact ih (t.applyCall c) hrest hstep

/-- C2: starting a `ScaledPositionTracker` from a non-negative initial
capital, for every sequence of `buy`/`sell` calls with positive prices and
fractions between 0 and 1, after every call (i.e. after every prefix of the
sequence) the tracker satisfies `position_shares ≥ 0`, `cash ≥ 0`, and
`position_cost = 0` exactly when `position_shares = 0`. -/
theorem C2_tracker_invariants (capital : ℚ) (hcap : 0 ≤ capital)
    (calls : List TrackerCall) (hv : ∀ c ∈ calls, c.Valid)
    (pre post : List TrackerCall) (hsplit : calls = pre ++ post) :
    0 ≤ ((ScaledPositionTracker.init capital).applyCalls pre).positionShares ∧
      0 ≤ ((ScaledPositionTracker.init capital).applyCalls pre).cash ∧
      (((ScaledPositionTracker.init capital).applyCalls pre).positionCost = 0 ↔
        ((ScaledPositionTracker.init capital).applyCalls pre).positionShares
          = 0) := by
  have hvpre : ∀ c ∈ pre, c.Valid := by
    intro c hm
    exact hv c (by rw [hsplit]; exact List.mem_append_left post hm)
  have hinit : TrackerInv (ScaledPositionTracker.init capital) := by
    refine ⟨hcap, le_refl 0, le_refl 0, ?_⟩
    simp [ScaledPositionTracker.init]
  have := trackerInv_applyCalls _ pre hvpre hinit
  exact ⟨this.2.1, this.1, this.2.2.2⟩

/-- Witness for C2: tracker with $1000, calls
`buy(0, 10, 1/2); sell(1, 20, 1/2); sell(2, 20, 1)`; checking the invariant
after the prefix of length 2. -/
theorem C2_tracker_invariants_witness :
    (0 : ℚ) ≤ 1000 ∧
      (∀ c ∈ [TrackerCall.buy 0 10 (1/2), TrackerCall.sell 1 20 (1/2),
        TrackerCall.sell 2 20 1], c.Valid) ∧
      ([TrackerCall.buy 0 10 (1/2), TrackerCall.sell 1 20 (1/2),
        TrackerCall.sell 2 20 1] =
        [TrackerCall.buy 0 10 (1/2), TrackerCall.sell 1 20 (1/2)] ++
          [TrackerCall.sell 2 20 1]) ∧
      (0 ≤ ((ScaledPositionTracker.init 1000).applyCalls
          [TrackerCall.buy 0 10 (1/2),
            TrackerCall.sell 1 20 (1/2)]).positionShares ∧
        0 ≤ ((ScaledPositionTracker.init 1000).applyCalls
          [TrackerCall.buy 0 10 (1/2),
            TrackerCall.sell 1 20 (1/2)]).cash ∧
        (((ScaledPositionTracker.init 1000).applyCalls
            [TrackerCall.buy 0 10 (1/2),
              TrackerCall.sell 1 20 (1/2)]).positionCost = 0 ↔
          ((ScaledPositionTracker.init 1000).applyCalls
            [TrackerCall.buy 0 10 (1/2),
              TrackerCall.sell 1 20 (1/2)]).positionShares = 0)) := by
  have hv : ∀ c ∈ [TrackerCall.buy 0 10 (1/2), TrackerCall.sell 1 20 (1/2),
      TrackerCall.sell 2 20 1], c.Valid := by
    intro c hm
    simp only [List.mem_cons, List.not_mem_nil, or_false] at hm
    rcases hm with h | h | h <;> subst h <;>
      exact ⟨by norm_num [TrackerCall.price], by norm_num [TrackerCall.frac],
        by norm_num [TrackerCall.frac]⟩
  exact ⟨by norm_num, hv, rfl,
    C2_tracker_invariants 1000 (by norm_num) _ hv _ _ rfl⟩

/-- C8 Scenario C: with $10,000 initial capital, `buy(d1, 100, 0.5)` buys
exactly 50 shares leaving `cash = 5000` and `position_cost = 5000`, and the
subsequent `sell(d2, 120, 1.0)` sells exactly 50 shares with proceeds 6000,
recorded `pnl = 1000` and `pnl_pct = 20`, leaving `cash = 11000` and
`position_shares = 0`. -/
theorem C8_scenario_c :
    ((ScaledPositionTracker.init 10000).buy 1 100 (1/2)).2 = 50 ∧
    ((ScaledPositionTracker.init 10000).buy 1 100 (1/2)).1.cash = 5000 ∧
    ((ScaledPositionTracker.init 10000).buy 1 100
      (1/2)).1.positionShares = 50 ∧
    ((ScaledPositionTracker.init 10000).buy 1 100
      (1/2)).1.positionCost = 5000 ∧
    (((ScaledPositionTracker.init 10000).buy 1 100 (1/2)).1.sell 2 120
      1).2 = 50 ∧
    (((ScaledPositionTracker.init 10000).buy 1 100 (1/2)).1.sell 2 120
      1).1.cash = 11000 ∧
    (((ScaledPositionTracker.init 10000).buy 1 100 (1/2)).1.sell 2 120
      1).1.positionShares = 0 ∧
    (((ScaledPositionTracker.init 10000).buy 1 100 (1/2)).1.sell 2 120
      1).1.positionCost = 0 ∧
    (∃ tr, ((((ScaledPositionTracker.init 10000).buy 1 100 (1/2)).1.sell 2
        120 1).1.trades.getLast?) = some tr ∧ tr.amount = 6000 ∧
      tr.pnl = some 1000 ∧ tr.pnlPct = some 20) := by
  norm_num [ScaledPositionTracker.init, ScaledPositionTracker.buy,
    ScaledPositionTracker.sell, pyInt, List.getLast?]

/-- A peak or trough, from `peak_detector.py` (`@dataclass class
PeakTrough`): its date, its (non-negated) price, and its index within the
analysis window. -/
structure PeakTrough where
  date : ℤ
  price : ℚ
  index : ℕ
deriving DecidableEq, Repr

/-- The plateau scan of scipy's `_local_maxima_1d`: starting at `j`,
advance while `j < imax` and `x j = v`, returning the first index where the
scan stops.  `fuel` bounds the recursion (any value ≥ `imax - j` is
exact). -/
def plateauEnd (x : ℕ → ℚ) (imax : ℕ) (v : ℚ) : ℕ → ℕ → ℕ
  | 0, j => j
  | fuel + 1, j => if j < imax ∧ x j = v then plateauEnd x imax v fuel (j + 1)
    else j

/-- The scan loop of scipy's `_local_maxima_1d` (called by
`scipy.signal.find_peaks` on `window['close'].values`): scan `i` from 1
while `i < imax = n - 1`; when `x (i-1) < x i`, find the end of the plateau
of samples equal to `x i`; if the sample after the plateau is strictly
smaller, record the plateau midpoint and resume after the plateau. -/
def localMaximaAux (x : ℕ → ℚ) (imax : ℕ) : ℕ → ℕ → List ℕ
  | 0, _ => []
  | fuel + 1, i =>
    if i < imax then
      if x (i - 1) < x i then
        let iAhead := plateauEnd x imax (x i) (imax - (i + 1)) (i + 1)
        if x iAhead < x i then
          (i + (iAhead - 1)) / 2 :: localMaximaAux x imax fuel (iAhead + 1)
        else localMaximaAux x imax fuel (i + 1)
      else localMaximaAux x imax fuel (i + 1)
    else []

/-- All local maxima (plateau midpoints) of `x 0, …, x (n-1)`, in strictly
increasing index order — scipy `_local_maxima_1d`. -/
def localMaxima (x : ℕ → ℚ) (n : ℕ) : List ℕ :=
  localMaximaAux x (n - 1) n 1

/-- The downward-clearing while loop of scipy's
`_select_by_peak_distance`: `k` runs from `kp - 1` down while
`pj - posF k < d`, marking each visited index as removed. -/
def clearDown (posF : ℕ → ℤ) (d pj : ℤ) : ℕ → (ℕ → Bool) → (ℕ → Bool)
  | 0, keep => keep
  | k + 1, keep =>
    if pj - posF k < d then
      clearDown posF d pj k (fun idx => if idx = k then false else keep idx)
    else keep

/-- The upward-clearing while loop of scipy's `_select_by_peak_distance`:
`k` runs from `j + 1` up while `k < m` and `posF k - pj < d`. -/
def clearUp (posF : ℕ → ℤ) (d pj : ℤ) (m : ℕ) : ℕ → ℕ → (ℕ → Bool) →
    (ℕ → Bool)
  | 0, _, keep => keep
  | fuel + 1, k, keep =>
    if k < m ∧ posF k - pj < d then
      clearUp posF d pj m fuel (k + 1)
        (fun idx => if idx = k then false else keep idx)
    else keep

/-- One iteration of scipy's `_select_by_peak_distance` at peak index `j`:
skip if already removed, otherwise clear every neighbour closer than `d`
below and above. -/
def selectStep (posF : ℕ → ℤ) (d : ℤ) (m : ℕ) (keep : ℕ → Bool) (j : ℕ) :
    ℕ → Bool :=
  if keep j then
    clearUp posF d (posF j) m (m - (j + 1)) (j + 1)
      (clearDown posF d (posF j) j keep)
  else keep

/-- scipy `_select_by_peak_distance`: process peaks in decreasing priority
(height) order, each surviving peak removing all neighbours closer than
`d`.  Returns the keep mask over peak-list indices `0, …, m-1`. -/
def selectByPeakDistance (posF : ℕ → ℤ) (d : ℤ) (m : ℕ)
    (order : List ℕ) : ℕ → Bool :=
  order.foldl (selectStep posF d m) (fun _ => true)

/-- The left base scan of scipy's `_peak_prominences` (with `wlen = -1`):
walk left from the peak while samples do not exceed the peak height,
accumulating the minimum.  `fuel = i + 1` encodes the current index `i`. -/
def promLeftMin (x : ℕ → ℚ) (h : ℚ) : ℕ → ℚ → ℚ
  | 0, acc => acc
  | i + 1, acc => if x i ≤ h then promLeftMin x h i (min acc (x i)) else acc

/-- The right base scan of scipy's `_peak_prominences`: walk right from the
peak while `i ≤ n - 1` and samples do not exceed the peak height,
accumulating the minimum. -/
def promRightMin (x : ℕ → ℚ) (h : ℚ) (n : ℕ) : ℕ → ℕ → ℚ → ℚ
  | 0, _, acc => acc
  | fuel + 1, i, acc => if i < n ∧ x i ≤ h then
      promRightMin x h n fuel (i + 1) (min acc (x i))
    else acc

/-- scipy `_peak_prominences` for the peak at window index `p` of the
signal `x 0, …, x (n-1)`: the peak height minus the higher of the two base
minima. -/
def peakProminence (x : ℕ → ℚ) (n : ℕ) (p : ℕ) : ℚ :=
  x p - max (promLeftMin x (x p) (p + 1) (x p))
    (promRightMin x (x p) n (n - p) p (x p))

/-- `scipy.signal.find_peaks(x, distance=d, prominence=0.5)` as used by
`find_distributed_peaks_troughs`: local maxima, then the distance
condition (highest peak first, removing neighbours closer than `d`), then
the prominence condition (`prominence ≥ 0.5`).  Returns the surviving peak
positions in increasing order.  (numpy's `argsort` tie order between
equal-height peaks is unspecified; the model resolves ties stably.) -/
def findPeaks (x : ℕ → ℚ) (n : ℕ) (d : ℕ) : List ℕ :=
  let maxima := localMaxima x n
  let m := maxima.length
  let posF : ℕ → ℤ := fun i => ((maxima.getD i 0 : ℕ) : ℤ)
  let heightF : ℕ → ℚ := fun i => x (maxima.getD i 0)
  let order := ((List.range m).insertionSort
    (fun a b => heightF a ≤ heightF b)).reverse
  let keep := selectByPeakDistance posF (d : ℤ) m order
  let kept := ((List.range m).filter (fun i => keep i)).map
    (fun i => maxima.getD i 0)
  kept.filter (fun p => (1 : ℚ) / 2 ≤ peakProminence x n p)

/-- `_filter_distributed`'s greedy loop (`peak_detector.py` lines 108-125):
iterate the ranked candidates, accepting one only if its index distance
from every already-selected point is at least `min_distance`, and break as
soon as `num_points` have been selected. -/
def filterDistributedGo (minDistance numPoints : ℕ) :
    List PeakTrough → List PeakTrough → List PeakTrough
  | [], selected => selected
  | point :: rest, selected =>
    let farEnough := selected.all
      (fun s => (minDistance : ℤ) ≤ |(point.index : ℤ) - (s.index : ℤ)|)
    let selected' := if farEnough then selected ++ [point] else selected
    if numPoints ≤ selected'.length then selected'
    else filterDistributedGo minDistance numPoints rest selected'

/-- `_filter_distributed` from `peak_detector.py` lines 97-125: return the
candidates unchanged if there are at most `num_points` of them, otherwise
run the greedy distribution filter. -/
def filterDistributed (points : List PeakTrough)
    (minDistance numPoints : ℕ) : List PeakTrough :=
  if points.length ≤ numPoints then points
  else filterDistributedGo minDistance numPoints points []

/-- The per-list post-processing of `find_distributed_peaks_troughs`
(`peak_detector.py` lines 60-92), shared by the peak and the trough side:
build the `PeakTrough` records for the detected window indices, rank them
by price (`rank` is price-descending for peaks, price-ascending for
troughs; the Python list sort is stable, as is `insertionSort`), apply the
greedy distribution filter, and re-sort the result chronologically. -/
def detectorSide (idx : List ℕ) (dateF : ℕ → ℤ) (px : ℕ → ℚ)
    (rank : PeakTrough → PeakTrough → Prop) [DecidableRel rank]
    (minDistance num : ℕ) : List PeakTrough :=
  (filterDistributed ((idx.map
      (fun i => PeakTrough.mk (dateF i) (px i) i)).insertionSort rank)
    minDistance num).insertionSort (fun a b => a.date ≤ b.date)

/-- `find_distributed_peaks_troughs` from `peak_detector.py` lines 20-94:
shrink the lookback to the data length if needed, take the lookback window,
find peaks of the closes and of the negated closes (troughs, whose recorded
price is the original close), then run the shared ranking / distribution /
chronological-sort steps (`detectorSide`) on each list. -/
def findDistributedPeaksTroughs (data : List Bar) (lookback minDistance
    numPeaks numTroughs : ℕ) : List PeakTrough × List PeakTrough :=
  let lookback := if data.length < lookback then data.length else lookback
  let window := data.drop (data.length - lookback)
  let n := window.length
  let px : ℕ → ℚ := fun i => (window.getD i (0, 0)).2
  let dateF : ℕ → ℤ := fun i => (window.getD i (0, 0)).1
  (detectorSide (findPeaks px n minDistance) dateF px
      (fun a b => b.price ≤ a.price) minDistance numPeaks,
    detectorSide (findPeaks (fun i => -px i) n minDistance) dateF px
      (fun a b => a.price ≤ b.price) minDistance numTroughs)

/-- The recency weight of an extremum: `1 / (days_ago + 1)` where
`days_ago = (last_date - point.date).days`. -/
def ptWeight (lastDate : ℤ) (p : PeakTrough) : ℚ :=
  1 / (((lastDate - p.date : ℤ) : ℚ) + 1)

/-- The time-weighted level of a list of extrema:
`sum(price * weight) / sum(weight)` — the loop bodies of
`calculate_time_weighted_levels` (`scaled_backtest.py` lines 111-125,
`production_strategy.py` lines 51-67). -/
def weightedLevel (pts : List PeakTrough) (lastDate : ℤ) : ℚ :=
  (pts.map (fun p => p.price * ptWeight lastDate p)).sum /
    (pts.map (ptWeight lastDate)).sum

/-- The Level Estimator: the part of `calculate_time_weighted_levels` after
the extrema detection — `none` when either list is empty (the source
returns `(None, None, None, None)`), otherwise `(support, resistance)`
where the support is the time-weighted mean of the trough prices and the
resistance that of the peak prices. -/
def estimateLevels (peaks troughs : List PeakTrough) (lastDate : ℤ) :
    Option (ℚ × ℚ) :=
  if peaks = [] ∨ troughs = [] then none
  else some (weightedLevel troughs lastDate, weightedLevel peaks lastDate)

/-- `calculate_time_weighted_levels` from `scaled_backtest.py` lines
100-127 (identical logic to `YINNProductionStrategy.
calculate_time_weighted_levels`, `production_strategy.py` lines 40-69):
detect distributed peaks/troughs (3 of each), return `none` if either list
is empty, otherwise the time-weighted support and resistance computed with
`last_date = data.index[-1]`, together with the two extremum lists. -/
def calculateTimeWeightedLevels (data : List Bar)
    (lookback minDistance : ℕ) :
    Option (ℚ × ℚ × List PeakTrough × List PeakTrough) :=
  let pt := findDistributedPeaksTroughs data lookback minDistance 3 3
  match estimateLevels pt.1 pt.2 ((data.getLast?.map Prod.fst).getD 0) with
  | none => none
  | some (support, resistance) => some (support, resistance, pt.1, pt.2)

/-- The constructor parameters of `YINNProductionStrategy`
(`production_strategy.py` lines 33-38). -/
structure ProdParams where
  lookback : ℕ
  minDistance : ℕ
  buyThresholdPct : ℚ
  sellThresholdPct : ℚ
deriving DecidableEq, Repr

/-- `YINNProductionStrategy.calculate_signals` from
`production_strategy.py` lines 71-96: the signal series starts as HOLD
everywhere; for each bar `i ≥ lookback` the levels are computed over the
strict history `data.iloc[:i]`; bars whose levels are unavailable stay
HOLD; otherwise BUY when the close is at or below
`support * (1 + buy_threshold_pct/100)`, else SELL when at or above
`resistance * (1 - sell_threshold_pct/100)`, else HOLD. -/
def calculateSignals (P : ProdParams) (data : List Bar) : List Signal :=
  (List.range data.length).map (fun i =>
    if i < P.lookback then Signal.HOLD
    else
      match calculateTimeWeightedLevels (data.take i) P.lookback
        P.minDistance with
      | none => Signal.HOLD
      | some (support, resistance, _, _) =>
        let currentPrice := (data.getD i (0, 0)).2
        let buyThreshold := support * (1 + P.buyThresholdPct / 100)
        let sellThreshold := resistance * (1 - P.sellThresholdPct / 100)
        if currentPrice ≤ buyThreshold then Signal.BUY
        else if sellThreshold ≤ currentPrice then Signal.SELL
        else Signal.HOLD)

/-- The `signal_strength` strings of `get_current_signal`. -/
inductive Strength
  | STRONG
  | MODERATE
  | NEUTRAL
deriving DecidableEq, Repr

/-- The result dictionary of `YINNProductionStrategy.get_current_signal`
(`production_strategy.py` lines 144-163). -/
structure GcsOk where
  date : ℤ
  currentPrice : ℚ
  signal : Signal
  signalStrength : Strength
  support : ℚ
  resistance : ℚ
  buyThreshold : ℚ
  sellThreshold : ℚ
  rangeWidth : ℚ
  positionInRangePct : ℚ
  upsidePotential : ℚ
  upsidePotentialPct : ℚ
  downsideRisk : ℚ
  downsideRiskPct : ℚ
  riskReward : ℚ
  peaks : List PeakTrough
  troughs : List PeakTrough
  lookbackDays : ℕ
deriving DecidableEq, Repr

/-- The outcome of `get_current_signal`: an `'error'` dictionary or a
result dictionary. -/
inductive GcsResult
  | err
  | ok (r : GcsOk)
deriving DecidableEq, Repr

/-- `YINNProductionStrategy.get_current_signal` from
`production_strategy.py` lines 98-163.  `some .err` models the returned
`'error'` dictionaries (insufficient data / no levels); `none` models an
uncaught `ZeroDivisionError`.  The source divides by `range_width`
(line 123), by `current_price` (line 156 `upside_potential_pct`) and by
`support` (line 158 `downside_risk_pct`) without any guard; each division
is modelled by an explicit zero test returning `none`.  The risk/reward
division (line 140) is guarded in the source by `potential_loss > 0`. -/
def getCurrentSignal (P : ProdParams) (data : List Bar) :
    Option GcsResult :=
  if data.length < P.lookback then some GcsResult.err
  else
    match calculateTimeWeightedLevels data P.lookback P.minDistance with
    | none => some GcsResult.err
    | some (support, resistance, peaks, troughs) =>
      let currentPrice := ((data.getLast?).getD (0, 0)).2
      let currentDate := ((data.getLast?).getD (0, 0)).1
      let buyThreshold := support * (1 + P.buyThresholdPct / 100)
      let sellThreshold := resistance * (1 - P.sellThresholdPct / 100)
      let rangeWidth := resistance - support
      if rangeWidth = 0 then none
      else
        let pctInRange := (currentPrice - support) / rangeWidth * 100
        let signal : Signal :=
          if currentPrice ≤ buyThreshold then Signal.BUY
          else if sellThreshold ≤ currentPrice then Signal.SELL
          else Signal.HOLD
        let strength : Strength :=
          if currentPrice ≤ buyThreshold then
            (if currentPrice < support then Strength.STRONG
              else Strength.MODERATE)
          else if sellThreshold ≤ currentPrice then
            (if resistance < currentPrice then Strength.STRONG
              else Strength.MODERATE)
          else Strength.NEUTRAL
        let riskReward : ℚ :=
          if signal = Signal.BUY then
            (if 0 < currentPrice - support then
              (resistance - currentPrice) / (currentPrice - support)
            else 0)
          else 0
        if currentPrice = 0 then none
        else if support = 0 then none
        else some (GcsResult.ok
          { date := currentDate
            currentPrice := currentPrice
            signal := signal
            signalStrength := strength
            support := support
            resistance := resistance
            buyThreshold := buyThreshold
            sellThreshold := sellThreshold
            rangeWidth := rangeWidth
            positionInRangePct := pctInRange
            upsidePotential := resistance - currentPrice
            upsidePotentialPct := (resistance / currentPrice - 1) * 100
            downsideRisk := currentPrice - support
            downsideRiskPct := (currentPrice / support - 1) * 100
            riskReward := riskReward
            peaks := peaks
            troughs := troughs
            lookbackDays := P.lookback })

/-- The three named level flags of `run_scaled_backtest`
(`buy_levels_hit` / `sell_levels_hit`, keys 80, 90, 100). -/
structure LevelFlags where
  l80 : Bool
  l90 : Bool
  l100 : Bool
deriving DecidableEq, Repr

/-- The all-false flag dictionary `{80: False, 90: False, 100: False}`. -/
def LevelFlags.reset : LevelFlags := ⟨false, false, false⟩

/-- The mutable state of the `run_scaled_backtest` loop: the tracker plus
the two flag dictionaries. -/
structure ScaledRunState where
  tracker : ScaledPositionTracker
  buyLevelsHit : LevelFlags
  sellLevelsHit : LevelFlags
deriving DecidableEq, Repr

/-- One iteration (bar `i`) of the `run_scaled_backtest` loop
(`scaled_backtest.py` lines 161-236), faithfully including the placement of
every flag update inside the `if shares > 0 and verbose:` blocks of the
source: the flags are only ever set (and the post-level-3 sell reset only
ever runs) when `verbose` is true.  Levels are computed over
`data.iloc[:i]` with the default `min_distance = 5`; bars without levels or
with `range_width ≤ 0` are skipped. -/
def scaledStep (lookback : ℕ) (verbose : Bool) (data : List Bar)
    (st : ScaledRunState) (i : ℕ) : ScaledRunState :=
  match calculateTimeWeightedLevels (data.take i) lookback 5 with
  | none => st
  | some (support, resistance, _, _) =>
    let currentPrice := (data.getD i (0, 0)).2
    let currentDate := (data.getD i (0, 0)).1
    let rangeWidth := resistance - support
    if rangeWidth ≤ 0 then st
    else
      let positionPct := (currentPrice - support) / rangeWidth * 100
      let buyFlags0 := if st.tracker.positionShares = 0 then LevelFlags.reset
        else st.buyLevelsHit
      let bstep : ScaledPositionTracker × LevelFlags :=
        if positionPct ≤ 20 ∧ buyFlags0.l80 = false then
          let r := st.tracker.buy currentDate currentPrice (3/10)
          (r.1, if 0 < r.2 ∧ verbose = true then { buyFlags0 with l80 := true }
            else buyFlags0)
        else if positionPct ≤ 10 ∧ buyFlags0.l90 = false then
          let r := st.tracker.buy currentDate currentPrice (3/10)
          (r.1, if 0 < r.2 ∧ verbose = true then { buyFlags0 with l90 := true }
            else buyFlags0)
        else if positionPct ≤ 2 ∧ buyFlags0.l100 = false then
          let r := st.tracker.buy currentDate currentPrice 1
          (r.1, if 0 < r.2 ∧ verbose = true then
            { buyFlags0 with l100 := true } else buyFlags0)
        else (st.tracker, buyFlags0)
      if 0 < bstep.1.positionShares then
        let sellFlags0 := if st.sellLevelsHit.l80 = false ∧
            st.sellLevelsHit.l90 = false ∧ st.sellLevelsHit.l100 = false then
          LevelFlags.reset else st.sellLevelsHit
        let sstep : ScaledPositionTracker × LevelFlags :=
          if 80 ≤ positionPct ∧ sellFlags0.l80 = false then
            let r := bstep.1.sell currentDate currentPrice (3/10)
            (r.1, if 0 < r.2 ∧ verbose = true then
              { sellFlags0 with l80 := true } else sellFlags0)
          else if 90 ≤ positionPct ∧ sellFlags0.l90 = false then
            let r := bstep.1.sell currentDate currentPrice (3/10)
            (r.1, if 0 < r.2 ∧ verbose = true then
              { sellFlags0 with l90 := true } else sellFlags0)
          else if 98 ≤ positionPct ∧ sellFlags0.l100 = false then
            let r := bstep.1.sell currentDate currentPrice 1
            (r.1, if 0 < r.2 ∧ verbose = true then LevelFlags.reset
              else sellFlags0)
          else (bstep.1, sellFlags0)
        { tracker := sstep.1, buyLevelsHit := bstep.2,
          sellLevelsHit := sstep.2 }
      else
        { tracker := bstep.1, buyLevelsHit := bstep.2,
          sellLevelsHit := st.sellLevelsHit }

/-- The trading loop of `run_scaled_backtest` (`scaled_backtest.py` lines
144-236): a fresh tracker and all-false flag dictionaries, then one
`scaledStep` per bar index from `start_idx = lookback` to the end of the
data.  (The results summary of lines 238-274 only reads the final state and
is not referenced by any claim.) -/
def runScaledBacktest (data : List Bar) (initialCapital : ℚ)
    (lookback : ℕ) (verbose : Bool) : ScaledRunState :=
  (List.range (data.length - lookback)).foldl
    (fun st k => scaledStep lookback verbose data st (lookback + k))
    { tracker := ScaledPositionTracker.init initialCapital
      buyLevelsHit := LevelFlags.reset
      sellLevelsHit := LevelFlags.reset }

/-- A 12-bar price series (dates 0-11) on which the scaled backtest with
`lookback = 10` computes valid levels at bars 10 and 11, with the close
sitting in the lowest fifth of the support-resistance range both times
(buy level 1). -/
def dataC4 : List Bar :=
  [(0, 22), (1, 26), (2, 22), (3, 21), (4, 25), (5, 20), (6, 24), (7, 19),
   (8, 23), (9, 18), (10, 39/2), (11, 39/2)]

set_option maxRecDepth 10000 in
/-- C4, the code bug: in `run_scaled_backtest` every
`buy_levels_hit[...] = True` / `sell_levels_hit[...] = True` assignment
(and the post-level-3 reset) sits inside an `if shares > 0 and verbose:`
block, so with `verbose=False` the flags never latch.  On `dataC4` with
`verbose=False` buy level 1 executes a trade on both bar 10 and bar 11 of
the same position cycle (the ledger holds two BUYs and the flags are still
all false), while the identical run with `verbose=True` executes exactly
one trade and latches the level-1 flag — the executed ledger depends on
the verbose setting, and a single level trades twice in one cycle. -/
theorem C4_verbose_flag_bug :
    (runScaledBacktest dataC4 10000 10 false).tracker.trades.map
        ScaledTrade.action = [TradeAction.BUY, TradeAction.BUY] ∧
      (runScaledBacktest dataC4 10000 10 false).buyLevelsHit =
        LevelFlags.reset ∧
      (runScaledBacktest dataC4 10000 10 true).tracker.trades.map
        ScaledTrade.action = [TradeAction.BUY] ∧
      (runScaledBacktest dataC4 10000 10 true).buyLevelsHit =
        ⟨true, false, false⟩ ∧
      0 < (runScaledBacktest dataC4 10000 10 false).tracker.positionShares := by
  with_unfolding_all decide

/-- A 10-bar price series whose time-weighted resistance and support are
both exactly `3180/127`: the single surviving peak `4206/127` at index 4
and peak `21` at index 7 average (time-weighted) to the same value as the
troughs `30, 30, 20` at indices 1, 3, 6.  The bump at index 2 and the dip
at index 8 are filtered out by the prominence condition (prominence
`2/5 < 1/2`). -/
def dataC5 : List Bar :=
  [(0, 31), (1, 30), (2, 152/5), (3, 30), (4, 4206/127), (5, 26), (6, 20),
   (7, 21), (8, 98/5), (9, 20)]

/-- `dataC5` with the index-4 peak raised to 31, giving distinct levels
(resistance `73/3`, support `3180/127`). -/
def dataC5b : List Bar :=
  [(0, 31), (1, 30), (2, 152/5), (3, 30), (4, 31), (5, 26), (6, 20),
   (7, 21), (8, 98/5), (9, 20)]

set_option maxRecDepth 10000 in
/-- C5 counterexample: on `dataC5` (lookback 10, min distance 1) the
computed resistance equals the computed support (`3180/127`), and
`get_current_signal` does not return a result: the unguarded division by
`range_width` on line 123 of `production_strategy.py` raises
`ZeroDivisionError` (modelled by `none`). -/
theorem C5_degenerate_range_counterexample :
    calculateTimeWeightedLevels dataC5 10 1 =
      some (3180/127, 3180/127,
        [⟨4, 4206/127, 4⟩, ⟨7, 21, 7⟩],
        [⟨1, 30, 1⟩, ⟨3, 30, 3⟩, ⟨6, 20, 6⟩]) ∧
      getCurrentSignal ⟨10, 1, 2, 2⟩ dataC5 = none := by
  constructor
  · with_unfolding_all rfl
  · with_unfolding_all rfl

/-- C5 (amended): the divisions in the tracker's `sell` are guarded — a
flat tracker makes `sell` a recorded no-op, so the division by
`position_shares` never runs on a zero denominator — and `get_current_signal`
returns a result whenever the computed range width, the computed support
and the last close are nonzero; but its `position-in-range` division is
not guarded, so on inputs whose computed resistance equals the computed
support it raises `ZeroDivisionError` instead of returning a result (see
the counterexample). -/
theorem C5_guarded_divisions :
    (∀ (t : ScaledPositionTracker) (d : ℤ) (p f : ℚ),
      t.positionShares ≤ 0 → t.sell d p f = (t, 0)) ∧
    (∀ (P : ProdParams) (data : List Bar),
      (∀ s r pk tr, calculateTimeWeightedLevels data P.lookback
          P.minDistance = some (s, r, pk, tr) →
        r - s ≠ 0 ∧ ((data.getLast?).getD (0, 0)).2 ≠ 0 ∧ s ≠ 0) →
      ∃ res, getCurrentSignal P data = some res) := by
  constructor
  · intro t d p f h
    simp only [ScaledPositionTracker.sell, if_pos h]
  · intro P data h
    rw [getCurrentSignal]
    by_cases hlen : data.length < P.lookback
    · rw [if_pos hlen]
      exact ⟨GcsResult.err, rfl⟩
    · rw [if_neg hlen]
      rcases hlev : calculateTimeWeightedLevels data P.lookback
        P.minDistance with _ | ⟨s, r, pk, tr⟩
      · exact ⟨GcsResult.err, rfl⟩
      · obtain ⟨hr, hp, hs⟩ := h s r pk tr hlev
        rw [← Option.isSome_iff_exists]
        simp only [if_neg hr, if_neg hp, if_neg hs, Option.isSome_some]

set_option maxRecDepth 10000 in
/-- Witness for C5 (amended): a flat tracker's `sell` is a no-op, and on
`dataC5b` — whose levels `3180/127` and `73/3` differ — `get_current_signal`
returns a result. -/
theorem C5_guarded_divisions_witness :
    ((ScaledPositionTracker.init 100).positionShares ≤ 0 ∧
      (ScaledPositionTracker.init 100).sell 0 10 1 =
        (ScaledPositionTracker.init 100, 0)) ∧
    ((∀ s r pk tr, calculateTimeWeightedLevels dataC5b 10 1 =
        some (s, r, pk, tr) →
      r - s ≠ 0 ∧ ((dataC5b.getLast?).getD (0, 0)).2 ≠ 0 ∧ s ≠ 0) ∧
      ∃ res, getCurrentSignal ⟨10, 1, 2, 2⟩ dataC5b = some res) := by
  have hkey : ∀ s r pk tr, calculateTimeWeightedLevels dataC5b 10 1 =
      some (s, r, pk, tr) →
      r - s ≠ 0 ∧ ((dataC5b.getLast?).getD (0, 0)).2 ≠ 0 ∧ s ≠ 0 := by
    have hlev : calculateTimeWeightedLevels dataC5b 10 1 =
        some (3180/127, 73/3,
          [⟨4, 31, 4⟩, ⟨7, 21, 7⟩],
          [⟨1, 30, 1⟩, ⟨3, 30, 3⟩, ⟨6, 20, 6⟩]) := by
      with_unfolding_all rfl
    intro s r pk tr h
    rw [hlev] at h
    injection h with h1
    injection h1 with hs h2
    injection h2 with hr h3
    subst hs
    subst hr
    refine ⟨by norm_num, ?_, by norm_num⟩
    with_unfolding_all decide
  refine ⟨⟨?_, ?_⟩, hkey, (C5_guarded_divisions.2 ⟨10, 1, 2, 2⟩ dataC5b hkey)⟩
  · with_unfolding_all decide
  · exact C5_guarded_divisions.1 _ 0 10 1 (by with_unfolding_all decide)

/-- C3: signal generation is causal.  `calculate_signals` evaluates bar `i`
from `data.iloc[:i]` and `data.iloc[i]` only, so for any two price series
agreeing on every bar up to and including index `i`, the signal emitted at
index `i` is identical — no lookahead. -/
theorem C3_causal_signals (P : ProdParams) (data1 data2 : List Bar) (i : ℕ)
    (h1 : i < data1.length) (h2 : i < data2.length)
    (hagree : data1.take (i + 1) = data2.take (i + 1)) :
    (calculateSignals P data1).get? i = (calculateSignals P data2).get? i := by
  have htake : data1.take i = data2.take i := by
    have h := congrArg (List.take i) hagree
    rwa [List.take_take, List.take_take,
      min_eq_left (Nat.le_succ i)] at h
  have hget : data1.get? i = data2.get? i := by
    have e1 : (data1.take (i + 1)).get? i = data1.get? i :=
      List.get?_take (Nat.lt_succ_self i)
    have e2 : (data2.take (i + 1)).get? i = data2.get? i :=
      List.get?_take (Nat.lt_succ_self i)
    rw [← e1, ← e2, hagree]
  have hgetD : data1.getD i (0, 0) = data2.getD i (0, 0) := by
    rw [List.getD_eq_get?, List.getD_eq_get?, hget]
  rw [calculateSignals, calculateSignals, List.get?_map, List.get?_map,
    List.get?_range h1, List.get?_range h2, Option.map_some',
    Option.map_some', htake, hgetD]

/-- Witness for C3: two 4-bar series agreeing on bars 0-2 and differing at
bar 3 produce the same signal at index 2 (strategy with lookback 2). -/
theorem C3_causal_signals_witness :
    (2 < ([((0 : ℤ), (10 : ℚ)), (1, 12), (2, 11), (3, 100)] :
        List Bar).length ∧
      2 < ([((0 : ℤ), (10 : ℚ)), (1, 12), (2, 11), (3, 5)] :
        List Bar).length ∧
      ([((0 : ℤ), (10 : ℚ)), (1, 12), (2, 11), (3, 100)] :
        List Bar).take 3 =
      ([((0 : ℤ), (10 : ℚ)), (1, 12), (2, 11), (3, 5)] :
        List Bar).take 3) ∧
    (calculateSignals ⟨2, 1, 2, 2⟩
        [((0 : ℤ), (10 : ℚ)), (1, 12), (2, 11), (3, 100)]).get? 2 =
      (calculateSignals ⟨2, 1, 2, 2⟩
        [((0 : ℤ), (10 : ℚ)), (1, 12), (2, 11), (3, 5)]).get? 2 := by
  refine ⟨⟨by decide, by decide, rfl⟩, ?_⟩
  exact C3_causal_signals ⟨2, 1, 2, 2⟩ _ _ 2 (by decide) (by decide) rfl

theorem weightedLevel_le (pts : List PeakTrough) (asOf : ℤ)
    (hwpos : ∀ p ∈ pts, 0 < ptWeight asOf p) (hne : pts ≠ []) (M : ℚ)
    (hM : ∀ p ∈ pts, p.price ≤ M) : weightedLevel pts asOf ≤ M := by
  have hsum : 0 < (pts.map (ptWeight asOf)).sum := by
    apply List.sum_pos
    · intro x hx
      obtain ⟨p, hp, rfl⟩ := List.mem_map.mp hx
      exact hwpos p hp
    · simp only [ne_eq, List.map_eq_nil_iff]
      exact hne
  rw [weightedLevel, div_le_iff hsum]
  calc (pts.map (fun p => p.price * ptWeight asOf p)).sum
      ≤ (pts.map (fun p => M * ptWeight asOf p)).sum := by
        apply List.sum_le_sum
        intro p hp
        exact mul_le_mul_of_nonneg_right (hM p hp) (hwpos p hp).le
    _ = M * (pts.map (ptWeight asOf)).sum := List.sum_map_mul_left _ _ _

theorem weightedLevel_ge (pts : List PeakTrough) (asOf : ℤ)
    (hwpos : ∀ p ∈ pts, 0 < ptWeight asOf p) (hne : pts ≠ []) (m : ℚ)
    (hm : ∀ p ∈ pts, m ≤ p.price) : m ≤ weightedLevel pts asOf := by
  have hsum : 0 < (pts.map (ptWeight asOf)).sum := by
    apply List.sum_pos
    · intro x hx
      obtain ⟨p, hp, rfl⟩ := List.mem_map.mp hx
      exact hwpos p hp
    · simp only [ne_eq, List.map_eq_nil_iff]
      exact hne
  rw [weightedLevel, le_div_iff hsum]
  calc m * (pts.map (ptWeight asOf)).sum
      = (pts.map (fun p => m * ptWeight asOf p)).sum :=
        (List.sum_map_mul_left _ _ _).symm
    _ ≤ (pts.map (fun p => p.price * ptWeight asOf p)).sum := by
        apply List.sum_le_sum
        intro p hp
        exact mul_le_mul_of_nonneg_right (hm p hp) (hwpos p hp).le

theorem ptWeight_pos (asOf : ℤ) (p : PeakTrough) (h : p.date ≤ asOf) :
    0 < ptWeight asOf p := by
  rw [ptWeight]
  apply div_pos one_pos
  have : (0 : ℚ) ≤ ((asOf - p.date : ℤ) : ℚ) := by
    exact_mod_cast Int.sub_nonneg.mpr h
  linarith

/-- C7: with an empty peak or trough list the Level Estimator returns the
insufficient-data sentinel `none`; with non-empty lists whose dates are not
after the as-of date, every point's weight `1/(days_ago + 1)` is strictly
positive, and the estimator returns `some (support, resistance)` where the
resistance lies within `[min, max]` of the peak prices and the support
within `[min, max]` of the trough prices (stated as: below every upper
bound of the prices and above every lower bound). -/
theorem C7_level_estimator :
    (∀ (peaks troughs : List PeakTrough) (asOf : ℤ),
      peaks = [] ∨ troughs = [] → estimateLevels peaks troughs asOf = none) ∧
    (∀ (peaks troughs : List PeakTrough) (asOf : ℤ),
      peaks ≠ [] → troughs ≠ [] →
      (∀ p ∈ peaks, p.date ≤ asOf) → (∀ t ∈ troughs, t.date ≤ asOf) →
      estimateLevels peaks troughs asOf =
        some (weightedLevel troughs asOf, weightedLevel peaks asOf) ∧
      (∀ p ∈ peaks, 0 < ptWeight asOf p) ∧
      (∀ t ∈ troughs, 0 < ptWeight asOf t) ∧
      (∀ M, (∀ p ∈ peaks, p.price ≤ M) → weightedLevel peaks asOf ≤ M) ∧
      (∀ m, (∀ p ∈ peaks, m ≤ p.price) → m ≤ weightedLevel peaks asOf) ∧
      (∀ M, (∀ t ∈ troughs, t.price ≤ M) → weightedLevel troughs asOf ≤ M) ∧
      (∀ m, (∀ t ∈ troughs, m ≤ t.price) → m ≤ weightedLevel troughs asOf)) := by
  constructor
  · intro peaks troughs asOf h
    rw [estimateLevels, if_pos h]
  · intro peaks troughs asOf hp ht hdp hdt
    have hwp : ∀ p ∈ peaks, 0 < ptWeight asOf p :=
      fun p hm => ptWeight_pos asOf p (hdp p hm)
    have hwt : ∀ t ∈ troughs, 0 < ptWeight asOf t :=
      fun t hm => ptWeight_pos asOf t (hdt t hm)
    refine ⟨?_, hwp, hwt, fun M hM => weightedLevel_le peaks asOf hwp hp M hM,
      fun m hm => weightedLevel_ge peaks asOf hwp hp m hm,
      fun M hM => weightedLevel_le troughs asOf hwt ht M hM,
      fun m hm => weightedLevel_ge troughs asOf hwt ht m hm⟩
    rw [estimateLevels, if_neg]
    push_neg
    exact ⟨hp, ht⟩

/-- Witness for C7: the empty-peaks case returns `none`; a single peak at
price 10 (date 0) and a single trough at price 5 (date 1), as of date 3,
give `some (5, 10)` with positive weights and the bounds holding at the
min/max of each singleton. -/
theorem C7_level_estimator_witness :
    estimateLevels [] [⟨1, 5, 1⟩] 3 = none ∧
      (estimateLevels [⟨0, 10, 0⟩] [⟨1, 5, 1⟩] 3 =
        some (weightedLevel [⟨1, 5, 1⟩] 3, weightedLevel [⟨0, 10, 0⟩] 3) ∧
      (∀ p ∈ [(⟨0, 10, 0⟩ : PeakTrough)], 0 < ptWeight 3 p) ∧
      (∀ t ∈ [(⟨1, 5, 1⟩ : PeakTrough)], 0 < ptWeight 3 t) ∧
      (∀ M, (∀ p ∈ [(⟨0, 10, 0⟩ : PeakTrough)], p.price ≤ M) →
        weightedLevel [⟨0, 10, 0⟩] 3 ≤ M) ∧
      (∀ m, (∀ p ∈ [(⟨0, 10, 0⟩ : PeakTrough)], m ≤ p.price) →
        m ≤ weightedLevel [⟨0, 10, 0⟩] 3) ∧
      (∀ M, (∀ t ∈ [(⟨1, 5, 1⟩ : PeakTrough)], t.price ≤ M) →
        weightedLevel [⟨1, 5, 1⟩] 3 ≤ M) ∧
      (∀ m, (∀ t ∈ [(⟨1, 5, 1⟩ : PeakTrough)], m ≤ t.price) →
        m ≤ weightedLevel [⟨1, 5, 1⟩] 3)) := by
  constructor
  · exact C7_level_estimator.1 [] [⟨1, 5, 1⟩] 3 (Or.inl rfl)
  · refine C7_level_estimator.2 [⟨0, 10, 0⟩] [⟨1, 5, 1⟩] 3
      (by simp) (by simp) ?_ ?_
    · intro p hm
      simp only [List.mem_singleton] at hm
      subst hm
      decide
    · intro t hm
      simp only [List.mem_singleton] at hm
      subst hm
      decide

theorem plateauEnd_ge (x : ℕ → ℚ) (imax : ℕ) (v : ℚ) :
    ∀ (fuel j : ℕ), j ≤ plateauEnd x imax v fuel j := by
  intro fuel
  induction fuel with
  | zero => intro j; simp [plateauEnd]
  | succ f ih =>
    intro j
    rw [plateauEnd]
    by_cases h : j < imax ∧ x j = v
    · rw [if_pos h]
      exact le_trans (Nat.le_succ j) (ih (j + 1))
    · rw [if_neg h]

theorem localMaximaAux_sorted (x : ℕ → ℚ) (imax : ℕ) :
    ∀ (fuel i : ℕ),
      (localMaximaAux x imax fuel i).Pairwise (· < ·) ∧
        ∀ q ∈ localMaximaAux x imax fuel i, i ≤ q := by
  intro fuel
  induction fuel with
  | zero =>
    intro i
    simp [localMaximaAux]
  | succ f ih =>
    intro i
    rw [localMaximaAux]
    by_cases h1 : i < imax
    · rw [if_pos h1]
      by_cases h2 : x (i - 1) < x i
      · rw [if_pos h2]
        by_cases h3 : x (plateauEnd x imax (x i) (imax - (i + 1)) (i + 1)) < x i
        · rw [if_pos h3]
          have hahead : i + 1 ≤ plateauEnd x imax (x i) (imax - (i + 1)) (i + 1) :=
            plateauEnd_ge x imax (x i) (imax - (i + 1)) (i + 1)
          obtain ⟨ihs, ihb⟩ :=
            ih (plateauEnd x imax (x i) (imax - (i + 1)) (i + 1) + 1)
          constructor
          · rw [List.pairwise_cons]
            refine ⟨?_, ihs⟩
            intro q hq
            have := ihb q hq
            omega
          · intro q hq
            rcases List.mem_cons.mp hq with h | h
            · omega
            · have := ihb q h
              omega
        · rw [if_neg h3]
          obtain ⟨ihs, ihb⟩ := ih (i + 1)
          exact ⟨ihs, fun q hq => le_trans (Nat.le_succ i) (ihb q hq)⟩
      · rw [if_neg h2]
        obtain ⟨ihs, ihb⟩ := ih (i + 1)
        exact ⟨ihs, fun q hq => le_trans (Nat.le_succ i) (ihb q hq)⟩
    · rw [if_neg h1]
      simp

theorem clearDown_keep_true (posF : ℕ → ℤ) (d pj : ℤ) :
    ∀ (kp : ℕ) (keep : ℕ → Bool) (y : ℕ),
      clearDown posF d pj kp keep y = true → keep y = true := by
  intro kp
  induction kp with
  | zero => intro keep y h; exact h
  | succ k ih =>
    intro keep y h
    rw [clearDown] at h
    by_cases hc : pj - posF k < d
    · rw [if_pos hc] at h
      have := ih _ y h
      by_cases hy : y = k
      · rw [if_pos hy] at this; cases this
      · rwa [if_neg hy] at this
    · rwa [if_neg hc] at h

theorem clearUp_keep_true (posF : ℕ → ℤ) (d pj : ℤ) (m : ℕ) :
    ∀ (fuel k : ℕ) (keep : ℕ → Bool) (y : ℕ),
      clearUp posF d pj m fuel k keep y = true → keep y = true := by
  intro fuel
  induction fuel with
  | zero => intro k keep y h; exact h
  | succ f ih =>
    intro k keep y h
    rw [clearUp] at h
    by_cases hc : k < m ∧ posF k - pj < d
    · rw [if_pos hc] at h
      have := ih _ _ y h
      by_cases hy : y = k
      · rw [if_pos hy] at this; cases this
      · rwa [if_neg hy] at this
    · rwa [if_neg hc] at h

theorem clearDown_keep_false (posF : ℕ → ℤ) (d pj : ℤ) (kp : ℕ)
    (keep : ℕ → Bool) (y : ℕ) (h : keep y = false) :
    clearDown posF d pj kp keep y = false := by
  cases hres : clearDown posF d pj kp keep y with
  | false => rfl
  | true => rw [clearDown_keep_true posF d pj kp keep y hres] at h; cases h

theorem clearUp_keep_false (posF : ℕ → ℤ) (d pj : ℤ) (m fuel k : ℕ)
    (keep : ℕ → Bool) (y : ℕ) (h : keep y = false) :
    clearUp posF d pj m fuel k keep y = false := by
  cases hres : clearUp posF d pj m fuel k keep y with
  | false => rfl
  | true => rw [clearUp_keep_true posF d pj m fuel k keep y hres] at h; cases h

theorem clearDown_clears (posF : ℕ → ℤ) (d pj : ℤ) :
    ∀ (kp : ℕ) (keep : ℕ → Bool) (k : ℕ), k < kp →
      (∀ q, k ≤ q → q < kp → pj - posF q < d) →
      clearDown posF d pj kp keep k = false := by
  intro kp
  induction kp with
  | zero => intro keep k hk; omega
  | succ kq ih =>
    intro keep k hk hgap
    rw [clearDown, if_pos (hgap kq (by omega) (by omega))]
    by_cases hky : k = kq
    · apply clearDown_keep_false
      rw [if_pos hky]
    · exact ih _ k (by omega) (fun q h1 h2 => hgap q h1 (by omega))

theorem clearUp_clears (posF : ℕ → ℤ) (d pj : ℤ) (m : ℕ) :
    ∀ (fuel k0 : ℕ) (keep : ℕ → Bool) (k : ℕ), k0 ≤ k → k < k0 + fuel →
      k < m → (∀ q, k0 ≤ q → q ≤ k → posF q - pj < d) →
      clearUp posF d pj m fuel k0 keep k = false := by
  intro fuel
  induction fuel with
  | zero => intro k0 keep k h1 h2; omega
  | succ f ih =>
    intro k0 keep k h1 h2 hm hgap
    rw [clearUp, if_pos ⟨by omega, hgap k0 (le_refl k0) h1⟩]
    by_cases hky : k = k0
    · apply clearUp_keep_false
      rw [if_pos hky]
    · exact ih (k0 + 1) _ k (by omega) (by omega) hm
        (fun q hq1 hq2 => hgap q (by omega) hq2)

theorem selectStep_clears (posF : ℕ → ℤ) (d : ℤ) (m : ℕ) (keep : ℕ → Bool)
    (j k : ℕ) (hkeep : keep j = true) (hj : j < m) (hk : k < m) (hne : k ≠ j)
    (hmono : ∀ a b, a ≤ b → b < m → posF a ≤ posF b)
    (hclose : |posF k - posF j| < d) :
    selectStep posF d m keep j k = false := by
  rw [selectStep, if_pos hkeep]
  rcases Nat.lt_or_ge k j with hlt | hge
  · -- k below j: cleared by the downward loop, stays cleared upward
    apply clearUp_keep_false
    apply clearDown_clears
    · exact hlt
    · intro q hq1 hq2
      have h1 : posF k ≤ posF q := hmono k q hq1 (by omega)
      have h2 : posF k ≤ posF j := hmono k j (le_of_lt hlt) hj
      have h3 : posF j - posF k < d := by
        rw [abs_sub_lt_iff] at hclose
        exact hclose.2
      omega
  · -- k above j: cleared by the upward loop
    have hgt : j < k := lt_of_le_of_ne hge (fun h => hne h.symm)
    apply clearUp_clears
    · omega
    · omega
    · exact hk
    · intro q hq1 hq2
      have h1 : posF q ≤ posF k := hmono q k hq2 hk
      have h2 : posF j ≤ posF k := hmono j k (le_of_lt hgt) hk
      have h3 : posF k - posF j < d := by
        rw [abs_sub_lt_iff] at hclose
        exact hclose.1
      omega

theorem selectStep_keep_true (posF : ℕ → ℤ) (d : ℤ) (m : ℕ)
    (keep : ℕ → Bool) (j y : ℕ) (h : selectStep posF d m keep j y = true) :
    keep y = true := by
  rw [selectStep] at h
  by_cases hkeep : keep j = true
  · rw [if_pos hkeep] at h
    exact clearDown_keep_true _ _ _ _ _ _ (clearUp_keep_true _ _ _ _ _ _ _ _ h)
  · rw [if_neg hkeep] at h
    exact h

theorem foldl_selectStep_keep_true (posF : ℕ → ℤ) (d : ℤ) (m : ℕ) :
    ∀ (order : List ℕ) (keep : ℕ → Bool) (y : ℕ),
      (order.foldl (selectStep posF d m) keep) y = true → keep y = true := by
  intro order
  induction order with
  | nil => intro keep y h; exact h
  | cons o rest ih =>
    intro keep y h
    exact selectStep_keep_true posF d m keep o y (ih _ y h)

theorem select_not_both (posF : ℕ → ℤ) (d : ℤ) (m : ℕ)
    (hmono : ∀ a b, a ≤ b → b < m → posF a ≤ posF b) :
    ∀ (order : List ℕ) (keep : ℕ → Bool) (j k : ℕ), j ∈ order → k ≠ j →
      j < m → k < m → |posF k - posF j| < d →
      ¬((order.foldl (selectStep posF d m) keep) j = true ∧
        (order.foldl (selectStep posF d m) keep) k = true) := by
  intro order
  induction order with
  | nil => intro keep j k hmem; cases hmem
  | cons o rest ih =>
    intro keep j k hmem hne hj hk hclose ⟨hjt, hkt⟩
    rw [List.foldl_cons] at hjt hkt
    by_cases ho : o = j
    · subst ho
      by_cases hkeep : keep o = true
      · have hcl : selectStep posF d m keep o k = false :=
          selectStep_clears posF d m keep o k hkeep hj hk hne hmono hclose
        have := foldl_selectStep_keep_true posF d m rest _ k hkt
        rw [hcl] at this
        cases this
      · have := foldl_selectStep_keep_true posF d m rest _ o hjt
        rw [selectStep, if_neg hkeep] at this
        exact hkeep this
    · have hmem' : j ∈ rest := by
        rcases List.mem_cons.mp hmem with h | h
        · exact absurd h.symm ho
        · exact h
      exact ih _ j k hmem' hne hj hk hclose ⟨hjt, hkt⟩

theorem sorted_getD_mono (maxima : List ℕ)
    (hsorted : maxima.Pairwise (· < ·)) (a b : ℕ) (hab : a ≤ b)
    (hb : b < maxima.length) :
    ((maxima.getD a 0 : ℕ) : ℤ) ≤ ((maxima.getD b 0 : ℕ) : ℤ) := by
  rcases Nat.lt_or_ge a b with hlt | hge
  · have ha : a < maxima.length := lt_trans hlt hb
    have h1 : maxima.getD a 0 = maxima.get ⟨a, ha⟩ := by
      rw [List.getD_eq_get?, List.get?_eq_get ha, Option.getD_some]
    have h2 : maxima.getD b 0 = maxima.get ⟨b, hb⟩ := by
      rw [List.getD_eq_get?, List.get?_eq_get hb, Option.getD_some]
    have := List.pairwise_iff_get.mp hsorted ⟨a, ha⟩ ⟨b, hb⟩ hlt
    rw [h1, h2]
    exact_mod_cast le_of_lt this
  · have : a = b := le_antisymm hab hge
    subst this
    exact le_refl _

theorem keptList_pairwise (maxima : List ℕ) (d : ℕ) (order : List ℕ)
    (hsorted : maxima.Pairwise (· < ·))
    (horder : ∀ j, j < maxima.length → j ∈ order) :
    (((List.range maxima.length).filter
        (fun i => selectByPeakDistance
          (fun i => ((maxima.getD i 0 : ℕ) : ℤ)) (d : ℤ)
          maxima.length order i)).map
      (fun i => maxima.getD i 0)).Pairwise
      (fun p q : ℕ => (d : ℤ) ≤ |(p : ℤ) - (q : ℤ)|) := by
  rw [List.pairwise_map]
  have hbase : ((List.range maxima.length).filter
      (fun i => selectByPeakDistance
        (fun i => ((maxima.getD i 0 : ℕ) : ℤ)) (d : ℤ)
        maxima.length order i)).Pairwise (· < ·) :=
    List.Pairwise.sublist (List.filter_sublist _) (List.pairwise_lt_range _)
  apply hbase.imp_of_mem
  intro a b ha hb hab
  have ha' := List.mem_filter.mp ha
  have hb' := List.mem_filter.mp hb
  have ham : a < maxima.length := List.mem_range.mp ha'.1
  have hbm : b < maxima.length := List.mem_range.mp hb'.1
  have hak : selectByPeakDistance (fun i => ((maxima.getD i 0 : ℕ) : ℤ))
      (d : ℤ) maxima.length order a = true := by
    have := ha'.2
    simpa using this
  have hbk : selectByPeakDistance (fun i => ((maxima.getD i 0 : ℕ) : ℤ))
      (d : ℤ) maxima.length order b = true := by
    have := hb'.2
    simpa using this
  by_contra hcon
  push_neg at hcon
  refine select_not_both (fun i => ((maxima.getD i 0 : ℕ) : ℤ)) (d : ℤ)
    maxima.length (sorted_getD_mono maxima hsorted) order (fun _ => true)
    a b (horder a ham) (by omega) ham hbm ?_ ⟨hak, hbk⟩
  rw [abs_sub_comm]
  exact hcon

theorem localMaxima_sorted (x : ℕ → ℚ) (n : ℕ) :
    (localMaxima x n).Pairwise (· < ·) :=
  (localMaximaAux_sorted x (n - 1) n 1).1

theorem findPeaks_pairwise (x : ℕ → ℚ) (n d : ℕ) :
    (findPeaks x n d).Pairwise
      (fun p q : ℕ => (d : ℤ) ≤ |(p : ℤ) - (q : ℤ)|) := by
  rw [findPeaks]
  apply List.Pairwise.sublist (List.filter_sublist _)
  apply keptList_pairwise (localMaxima x n) d _ (localMaxima_sorted x n)
  intro j hj
  rw [List.mem_reverse, (List.perm_insertionSort _ _).mem_iff, List.mem_range]
  exact hj

theorem filterDistributedGo_append (dmin num : ℕ) :
    ∀ (pts sel : List PeakTrough),
      ∃ t, filterDistributedGo dmin num pts sel = sel ++ t ∧ t.Sublist pts := by
  intro pts
  induction pts with
  | nil =>
    intro sel
    exact ⟨[], by simp [filterDistributedGo], List.Sublist.refl []⟩
  | cons p rest ih =>
    intro sel
    rw [filterDistributedGo]
    by_cases hfar : sel.all (fun s =>
        (dmin : ℤ) ≤ |(p.index : ℤ) - (s.index : ℤ)|) = true
    · rw [if_pos hfar]
      by_cases hstop : num ≤ (sel ++ [p]).length
      · rw [if_pos hstop]
        exact ⟨[p], rfl, by simp⟩
      · rw [if_neg hstop]
        obtain ⟨t, ht, hsub⟩ := ih (sel ++ [p])
        refine ⟨[p] ++ t, ?_, ?_⟩
        · rw [ht, List.append_assoc]
        · simpa using List.Sublist.cons₂ p hsub
    · rw [if_neg hfar]
      by_cases hstop : num ≤ sel.length
      · rw [if_pos hstop]
        exact ⟨[], by simp, List.nil_sublist _⟩
      · rw [if_neg hstop]
        obtain ⟨t, ht, hsub⟩ := ih sel
        exact ⟨t, ht, hsub.cons p⟩

theorem filterDistributed_sublist (pts : List PeakTrough)
    (dmin num : ℕ) : (filterDistributed pts dmin num).Sublist pts := by
  rw [filterDistributed]
  by_cases h : pts.length ≤ num
  · rw [if_pos h]
  · rw [if_neg h]
    obtain ⟨t, ht, hsub⟩ := filterDistributedGo_append dmin num pts []
    rw [ht, List.nil_append]
    exact hsub

theorem filterDistributedGo_length (dmin num : ℕ) :
    ∀ (pts sel : List PeakTrough), sel.length < num →
      (filterDistributedGo dmin num pts sel).length ≤ num := by
  intro pts
  induction pts with
  | nil =>
    intro sel hlen
    rw [filterDistributedGo]
    omega
  | cons p rest ih =>
    intro sel hlen
    rw [filterDistributedGo]
    by_cases hfar : sel.all (fun s =>
        (dmin : ℤ) ≤ |(p.index : ℤ) - (s.index : ℤ)|) = true
    · rw [if_pos hfar]
      by_cases hstop : num ≤ (sel ++ [p]).length
      · rw [if_pos hstop]
        simp only [List.length_append, List.length_cons, List.length_nil]
        omega
      · rw [if_neg hstop]
        apply ih
        simp only [List.length_append, List.length_cons, List.length_nil]
          at hstop ⊢
        omega
    · rw [if_neg hfar]
      by_cases hstop : num ≤ sel.length
      · rw [if_pos hstop]
        omega
      · rw [if_neg hstop]
        exact ih sel (by omega)

theorem filterDistributed_length (pts : List PeakTrough) (dmin num : ℕ)
    (hnum : 1 ≤ num) : (filterDistributed pts dmin num).length ≤ num := by
  rw [filterDistributed]
  by_cases h : pts.length ≤ num
  · rw [if_pos h]
    exact h
  · rw [if_neg h]
    exact filterDistributedGo_length dmin num pts [] (by simp; omega)

theorem side_props (idx : List ℕ) (dateF : ℕ → ℤ) (px : ℕ → ℚ)
    (rank : PeakTrough → PeakTrough → Prop) [DecidableRel rank]
    (minDistance num : ℕ) (hnum : 1 ≤ num)
    (hpw : idx.Pairwise
      (fun p q : ℕ => (minDistance : ℤ) ≤ |(p : ℤ) - (q : ℤ)|)) :
    (detectorSide idx dateF px rank minDistance num).length ≤ num ∧
    (detectorSide idx dateF px rank minDistance num).Pairwise
      (fun a b => a.date ≤ b.date) ∧
    (detectorSide idx dateF px rank minDistance num).Pairwise
      (fun a b => (minDistance : ℤ) ≤ |(a.index : ℤ) - (b.index : ℤ)|) := by
  rw [detectorSide]
  have hsymm : ∀ {a b : PeakTrough},
      (minDistance : ℤ) ≤ |(a.index : ℤ) - (b.index : ℤ)| →
      (minDistance : ℤ) ≤ |(b.index : ℤ) - (a.index : ℤ)| := by
    intro a b h
    rwa [abs_sub_comm]
  have hmap : (idx.map (fun i => PeakTrough.mk (dateF i) (px i) i)).Pairwise
      (fun a b => (minDistance : ℤ) ≤ |(a.index : ℤ) - (b.index : ℤ)|) :=
    List.pairwise_map.mpr hpw
  have hranked : ((idx.map
      (fun i => PeakTrough.mk (dateF i) (px i) i)).insertionSort
        rank).Pairwise
      (fun a b => (minDistance : ℤ) ≤ |(a.index : ℤ) - (b.index : ℤ)|) :=
    ((List.perm_insertionSort rank _).pairwise_iff hsymm).mpr hmap
  have hfiltered := List.Pairwise.sublist
    (filterDistributed_sublist ((idx.map
      (fun i => PeakTrough.mk (dateF i) (px i) i)).insertionSort rank)
      minDistance num) hranked
  haveI : IsTotal PeakTrough (fun a b => a.date ≤ b.date) :=
    ⟨fun a b => le_total a.date b.date⟩
  haveI : IsTrans PeakTrough (fun a b => a.date ≤ b.date) :=
    ⟨fun _ _ _ hab hbc => le_trans hab hbc⟩
  refine ⟨?_, ?_, ?_⟩
  · rw [List.length_insertionSort]
    exact filterDistributed_length _ minDistance num hnum
  · exact List.sorted_insertionSort _ _
  · exact ((List.perm_insertionSort _ _).pairwise_iff hsymm).mpr hfiltered

set_option maxHeartbeats 4000000 in
/-- C6 (amended): for every price series and requested counts
`num_peaks, num_troughs ≥ 1`, the Extrema Detector returns peak and trough
lists that are each ordered ascending by date, have length at most the
requested count, and contain no two points of the same list whose window
indices are closer than `min_distance` apart (the raw scipy distance pass
already guarantees the separation, and both branches of the distribution
filter preserve it). -/
theorem C6_detector_properties (data : List Bar)
    (lookback minDistance numPeaks numTroughs : ℕ)
    (hp : 1 ≤ numPeaks) (ht : 1 ≤ numTroughs) :
    ((findDistributedPeaksTroughs data lookback minDistance numPeaks
        numTroughs).1.length ≤ numPeaks ∧
      (findDistributedPeaksTroughs data lookback minDistance numPeaks
        numTroughs).2.length ≤ numTroughs) ∧
    ((findDistributedPeaksTroughs data lookback minDistance numPeaks
        numTroughs).1.Pairwise (fun a b => a.date ≤ b.date) ∧
      (findDistributedPeaksTroughs data lookback minDistance numPeaks
        numTroughs).2.Pairwise (fun a b => a.date ≤ b.date)) ∧
    ((findDistributedPeaksTroughs data lookback minDistance numPeaks
        numTroughs).1.Pairwise
        (fun a b => (minDistance : ℤ) ≤ |(a.index : ℤ) - (b.index : ℤ)|) ∧
      (findDistributedPeaksTroughs data lookback minDistance numPeaks
        numTroughs).2.Pairwise
        (fun a b => (minDistance : ℤ) ≤ |(a.index : ℤ) - (b.index : ℤ)|)) := by
  obtain ⟨pl, ps, pd⟩ := side_props
    (findPeaks (fun i => ((data.drop (data.length - if data.length < lookback
        then data.length else lookback)).getD i (0, 0)).2)
      (data.drop (data.length - if data.length < lookback
        then data.length else lookback)).length minDistance)
    (fun i => ((data.drop (data.length - if data.length < lookback
        then data.length else lookback)).getD i (0, 0)).1)
    (fun i => ((data.drop (data.length - if data.length < lookback
        then data.length else lookback)).getD i (0, 0)).2)
    (fun a b => b.price ≤ a.price) minDistance numPeaks hp
    (findPeaks_pairwise _ _ _)
  obtain ⟨tl, ts, td⟩ := side_props
    (findPeaks (fun i => -((data.drop (data.length - if data.length < lookback
        then data.length else lookback)).getD i (0, 0)).2)
      (data.drop (data.length - if data.length < lookback
        then data.length else lookback)).length minDistance)
    (fun i => ((data.drop (data.length - if data.length < lookback
        then data.length else lookback)).getD i (0, 0)).1)
    (fun i => ((data.drop (data.length - if data.length < lookback
        then data.length else lookback)).getD i (0, 0)).2)
    (fun a b => a.price ≤ b.price) minDistance numTroughs ht
    (findPeaks_pairwise _ _ _)
  exact ⟨⟨pl, tl⟩, ⟨ps, ts⟩, ⟨pd, td⟩⟩

/-- C6 counterexample: the claim fails when 0 peaks are requested.  On the
series `1, 2, 1` (one raw peak) with `num_peaks = 0`, `_filter_distributed`
checks its break condition only after appending, so it returns one point —
the returned peak list is longer than the requested count. -/
theorem C6_requested_zero_counterexample :
    ¬ ((findDistributedPeaksTroughs [(0, 1), (1, 2), (2, 1)] 3 1 0 3).1.length
      ≤ 0) := by
  with_unfolding_all decide

/-- Witness for C6 (amended), at the series `1, 2, 1` with lookback 3,
min distance 1 and 3 peaks/troughs requested. -/
theorem C6_detector_properties_witness :
    ((1 : ℕ) ≤ 3) ∧
    (((findDistributedPeaksTroughs [(0, 1), (1, 2), (2, 1)] 3 1 3
        3).1.length ≤ 3 ∧
      (findDistributedPeaksTroughs [(0, 1), (1, 2), (2, 1)] 3 1 3
        3).2.length ≤ 3) ∧
    ((findDistributedPeaksTroughs [(0, 1), (1, 2), (2, 1)] 3 1 3
        3).1.Pairwise (fun a b => a.date ≤ b.date) ∧
      (findDistributedPeaksTroughs [(0, 1), (1, 2), (2, 1)] 3 1 3
        3).2.Pairwise (fun a b => a.date ≤ b.date)) ∧
    ((findDistributedPeaksTroughs [(0, 1), (1, 2), (2, 1)] 3 1 3
        3).1.Pairwise
        (fun a b => ((1 : ℕ) : ℤ) ≤ |(a.index : ℤ) - (b.index : ℤ)|) ∧
      (findDistributedPeaksTroughs [(0, 1), (1, 2), (2, 1)] 3 1 3
        3).2.Pairwise
        (fun a b => ((1 : ℕ) : ℤ) ≤ |(a.index : ℤ) - (b.index : ℤ)|))) :=
  ⟨by decide, C6_detector_properties [(0, 1), (1, 2), (2, 1)] 3 1 3 3
    (by decide) (by decide)⟩
